import Mathlib

/-!
# Write-path coordination of the websocket ping / pong / idle-ping operations

Shallow embedding of `beast/websocket/impl/ping.hpp`:

* `ping_op`         the composed operation behind `async_ping` / `async_pong`
* `idle_ping_op`    the keep-alive operation
* `stream.ping`, `stream.pong`   the blocking variants

The coroutine bodies (`ASIO_CORO_REENTER`) are written as one function per
resumption, switching on the saved coroutine state.  The connection
(`impl_type`), the executor queue and the transport are explicit state; every
call an operation makes on a collaborator is recorded in an event log so that
"what was called, and in which order" can be stated.
-/

namespace websocket

/-! ## Plain data -/

/-- Values of `error_code` that the operations distinguish: the default
constructed code (`success`), `net::error::operation_aborted`, and any other. -/
inductive error_code
  | success
  | operation_aborted
  | other (n : Nat)
  deriving DecidableEq, Repr

/-- The frame opcodes of `detail::opcode`. -/
inductive opcode
  | cont | text | binary | close | ping | pong
  deriving DecidableEq, Repr

/-- Payload of a control frame (`ping_data`), as bytes. -/
abbrev ping_data := List Nat

/-- Serialized frame (`detail::frame_buffer`), as bytes. -/
abbrev frame_buffer := List Nat

/-- The kinds of writer competing for the write lock.  In the source
`ping_op::id = 3` and `idle_ping_op::id = 4` ("for soft_mutex"). -/
inductive RoleId
  | close | ping | idle_ping | rd | wr
  deriving DecidableEq, Repr

/-- The roles whose operations are not part of `ping.hpp`. -/
inductive peer_role
  | close | rd | wr
  deriving DecidableEq, Repr

/-- Lock role of a peer. -/
def peer_role.id : peer_role → RoleId
  | .close => .close
  | .rd => .rd
  | .wr => .wr

/-- State of an `asio::coroutine`: not yet entered, suspended at the first,
second or third `ASIO_CORO_YIELD` of the body, or complete. -/
inductive coro_state
  | start | yield1 | yield2 | yield3 | done
  deriving DecidableEq, Repr

/-! ## The operations as objects -/

/-- Members of `stream::ping_op`: the completion handler (identified by a
number), the frame buffer `fb_`, and the coroutine base. -/
structure ping_op where
  h_ : Nat
  fb_ : frame_buffer
  coro : coro_state
  deriving DecidableEq, Repr

/-- Members of `stream::idle_ping_op`: the frame buffer `fb_` and the
coroutine base.  There is no completion handler. -/
structure idle_ping_op where
  fb_ : frame_buffer
  coro : coro_state
  deriving DecidableEq, Repr

/-- Modelled from the spec: the composed operation of another role (close, read
side control, user write); their sources (`close.hpp`, `read.hpp`, `write.hpp`)
are missing.  Spec 2: "once it holds the lock it performs one write, then releases
and invokes the Resumption Dispatcher"; the order in which such a role offers
the lock on release is not fixed by the spec and is carried as data. -/
structure peer_op where
  r : peer_role
  fb_ : frame_buffer
  order : List RoleId
  coro : coro_state
  deriving DecidableEq, Repr

/-- Any suspended operation, as stored by `std::move(*this)`. -/
inductive coro_op
  | ping (self : ping_op)
  | idle_ping (self : idle_ping_op)
  | peer (self : peer_op)
  deriving DecidableEq, Repr

/-- Lock role of an operation. -/
def coro_op.role : coro_op → RoleId
  | .ping _ => .ping
  | .idle_ping _ => .idle_ping
  | .peer p => p.r.id

/-- Coroutine state of an operation. -/
def coro_op.coro : coro_op → coro_state
  | .ping p => p.coro
  | .idle_ping p => p.coro
  | .peer p => p.coro

/-- Frame buffer of an operation. -/
def coro_op.fb : coro_op → frame_buffer
  | .ping p => p.fb_
  | .idle_ping p => p.fb_
  | .peer p => p.fb_

/-! ## Collaborators -/

/-- Modelled from the spec: the soft mutex `wr_block` (`soft_mutex.hpp` is
missing).  Spec 3: state is `owner: optional<RoleId>`. -/
structure soft_mutex where
  owner : Option RoleId
  deriving DecidableEq, Repr

/-- Modelled from the spec: `try_lock(role)` "succeeds iff owner is empty,
atomically setting owner = role". -/
def soft_mutex.try_lock (m : soft_mutex) (r : RoleId) : Bool × soft_mutex :=
  if m.owner = none then (true, { owner := some r }) else (false, m)

/-- Modelled from the spec: `lock(role)` is "an assertion-backed direct
assignment, not a spin/blocking wait". -/
def soft_mutex.lock (_m : soft_mutex) (r : RoleId) : soft_mutex :=
  { owner := some r }

/-- Modelled from the spec: `unlock(role)` "requires owner == role and clears it". -/
def soft_mutex.unlock (_m : soft_mutex) (_r : RoleId) : soft_mutex :=
  { owner := none }

/-- Modelled from the spec: `is_locked(role)`, the debugging helper. -/
def soft_mutex.is_locked (m : soft_mutex) (r : RoleId) : Bool :=
  decide (m.owner = some r)

/-- Modelled from the spec: a waiter slot (`saved_handler`) holds at most one
suspended operation. -/
abbrev saved_handler := Option coro_op

/-- The part of `stream::impl_type` that `ping.hpp` uses: the write lock, the
five waiter slots, the `idle_pinging` bit, and the lifecycle state that
`check_stop_now` inspects (kept abstract). -/
structure impl_type (σ : Type) where
  wr_block : soft_mutex
  op_close : saved_handler
  op_ping : saved_handler
  op_idle_ping : saved_handler
  op_rd : saved_handler
  op_wr : saved_handler
  idle_pinging : Bool
  status : σ

/-- Modelled from the spec: the two services of `impl_type` that the
operations call and whose code is missing.  `write_ping` is the frame encoder
(spec 6: "pure, no I/O").  `check_stop_now` is the stop-condition check (spec
6: `check_stop_now() -> optional<ErrorCode>`): it reads and may update the
lifecycle state; the source passes the current `ec` by reference, so the check
may depend on it; `some e` is a reported stop (the call returns true and
leaves `e` in `ec`), `none` is no stop (the call returns false and `ec` keeps
its value). -/
structure Collab (σ : Type) where
  write_ping : opcode → ping_data → frame_buffer
  check_stop_now : σ → error_code → Option error_code × σ

/-- Calls made on collaborators, in program order. -/
inductive Event
  | write_ping (op : opcode) (payload : ping_data)
  | check_stop_now (r : Option error_code)
  | try_lock (r : RoleId) (ok : Bool)
  | lock (r : RoleId)
  | unlock (r : RoleId)
  | emplace (r : RoleId)
  | invoke (r : RoleId)
  | post (r : RoleId)
  | async_write (r : RoleId) (fb : frame_buffer)
  | write (fb : frame_buffer)
  | assert_is_locked (ok : Bool)
  | assert_idle_pinging (ok : Bool)
  | set_idle_pinging (b : Bool)
  | complete (h : Nat) (cont : Bool) (ec : error_code)
  deriving DecidableEq, Repr

/-- Everything an operation can act on: whether the `weak_ptr` to the
connection still resolves, the connection, the executor's queue of posted
operations, the transport's outstanding asynchronous writes, and the log. -/
structure Sys (σ : Type) where
  alive : Bool
  impl : impl_type σ
  posted : List coro_op
  inflight : List coro_op
  log : List Event

variable {σ : Type}

/-- Waiter slot of a role. -/
def impl_type.slot (m : impl_type σ) : RoleId → saved_handler
  | .close => m.op_close
  | .ping => m.op_ping
  | .idle_ping => m.op_idle_ping
  | .rd => m.op_rd
  | .wr => m.op_wr

/-- Overwrite the waiter slot of a role. -/
def impl_type.set_slot (m : impl_type σ) (r : RoleId) (v : saved_handler) : impl_type σ :=
  match r with
  | .close => { m with op_close := v }
  | .ping => { m with op_ping := v }
  | .idle_ping => { m with op_idle_ping := v }
  | .rd => { m with op_rd := v }
  | .wr => { m with op_wr := v }

/-! ## Primitive calls -/

/-- Append an event to the log. -/
def Sys.emit (s : Sys σ) (e : Event) : Sys σ :=
  { s with log := s.log ++ [e] }

/-- The call `impl.wr_block.try_lock(this)`. -/
def Sys.try_lock (s : Sys σ) (r : RoleId) : Bool × Sys σ :=
  ((s.impl.wr_block.try_lock r).1,
   ({ s with impl := { s.impl with wr_block := (s.impl.wr_block.try_lock r).2 } }).emit
     (.try_lock r (s.impl.wr_block.try_lock r).1))

/-- The call `impl.wr_block.lock(this)`. -/
def Sys.lock (s : Sys σ) (r : RoleId) : Sys σ :=
  ({ s with impl := { s.impl with wr_block := s.impl.wr_block.lock r } }).emit (.lock r)

/-- The call `impl.wr_block.unlock(this)`. -/
def Sys.unlock (s : Sys σ) (r : RoleId) : Sys σ :=
  ({ s with impl := { s.impl with wr_block := s.impl.wr_block.unlock r } }).emit (.unlock r)

/-- The statement `BEAST_ASSERT(impl.wr_block.is_locked(this))`. -/
def Sys.assert_is_locked (s : Sys σ) (r : RoleId) : Sys σ :=
  s.emit (.assert_is_locked (s.impl.wr_block.is_locked r))

/-- The call `impl.op_xxx.emplace(std::move(*this))`. -/
def Sys.emplace (s : Sys σ) (r : RoleId) (op : coro_op) : Sys σ :=
  ({ s with impl := s.impl.set_slot r (some op) }).emit (.emplace r)

/-- The call `net::post(std::move(*this))`. -/
def Sys.post (s : Sys σ) (op : coro_op) : Sys σ :=
  ({ s with posted := s.posted ++ [op] }).emit (.post op.role)

/-- The call `net::async_write(impl.stream(), fb_.data(), std::move(*this))`. -/
def Sys.async_write (s : Sys σ) (op : coro_op) : Sys σ :=
  ({ s with inflight := s.inflight ++ [op] }).emit (.async_write op.role op.fb)

/-- The call `impl.check_stop_now(ec)`: the reported stop, if any, and the
state afterwards. -/
def Sys.check_stop_now (s : Sys σ) (c : Collab σ) (ec : error_code) :
    Option error_code × Sys σ :=
  ((c.check_stop_now s.impl.status ec).1,
   ({ s with impl := { s.impl with status := (c.check_stop_now s.impl.status ec).2 } }).emit
     (.check_stop_now (c.check_stop_now s.impl.status ec).1))

/-- The assignment `sp->idle_pinging = b`. -/
def Sys.set_idle_pinging (s : Sys σ) (b : Bool) : Sys σ :=
  ({ s with impl := { s.impl with idle_pinging := b } }).emit (.set_idle_pinging b)

/-! ## Resumption of a saved operation -/

/-- Lines 91-99 of `ping_op::operator()`: entered when the operation saved in
`op_ping` is invoked; takes the lock and posts itself. -/
def ping_op.relock (self : ping_op) (s : Sys σ) : Sys σ :=
  (s.lock .ping).post (.ping { self with coro := .yield2 })

/-- Lines 200-209 of `idle_ping_op::operator()`: entered when the operation
saved in `op_idle_ping` is invoked; takes the lock and posts itself. -/
def idle_ping_op.relock (self : idle_ping_op) (s : Sys σ) : Sys σ :=
  (s.lock .idle_ping).post (.idle_ping { self with coro := .yield2 })

/-- Modelled from the spec: a woken peer operation (source missing).  Spec 3:
"`lock(role)` is used only by a role that has just been woken"; spec 4.4: the
continuation is resumed "by scheduling it to run". -/
def peer_op.relock (self : peer_op) (s : Sys σ) : Sys σ :=
  (s.lock self.r.id).post (.peer { self with coro := .yield2 })

/-- Invocation of a saved handler.  A handler is only ever saved at the first
yield of its body, so invoking it enters the body right after that yield; the
invoking operation holds the `shared_ptr`, so the connection resolves. -/
def coro_op.invoke_saved : coro_op → Sys σ → Sys σ
  | .ping p, s => p.relock s
  | .idle_ping p, s => p.relock s
  | .peer p, s => p.relock s

/-- Modelled from the spec: the occupied branch of `maybe_invoke()`: empty the slot
and invoke the operation that was saved in it. -/
def Sys.invoke (s : Sys σ) (r : RoleId) (op : coro_op) : Sys σ :=
  op.invoke_saved (({ s with impl := s.impl.set_slot r none }).emit (.invoke r))

/-- Modelled from the spec: `impl.op_xxx.maybe_invoke()` (`saved_handler.hpp`
is missing): if the slot is occupied, empty it, invoke the saved operation and
return true; otherwise return false. -/
def Sys.maybe_invoke (s : Sys σ) (r : RoleId) : Bool × Sys σ :=
  match s.impl.slot r with
  | none => (false, s)
  | some op => (true, s.invoke r op)

/-- The expression `a.maybe_invoke() || b.maybe_invoke() || ...` over the slots
of the listed roles, with the short circuit of `||`. -/
def Sys.maybe_invoke_any : List RoleId → Sys σ → Sys σ
  | [], s => s
  | r :: rs, s =>
      if (s.maybe_invoke r).1 then (s.maybe_invoke r).2
      else Sys.maybe_invoke_any rs (s.maybe_invoke r).2

/-! ## `ping_op` -/

/-- Lines 118-124: the `upcall` label of `ping_op::operator()`. -/
def ping_op.upcall (self : ping_op) (ec : error_code) (cont : Bool) (s : Sys σ) : Sys σ :=
  ((s.unlock .ping).maybe_invoke_any [.close, .idle_ping, .rd, .wr]).emit
    (.complete self.h_ cont ec)

/-- Lines 102-114: with the lock held, check the stop condition, then either
jump to `upcall` or start the transport write and suspend (third yield). -/
def ping_op.send (c : Collab σ) (self : ping_op) (ec : error_code) (cont : Bool)
    (s : Sys σ) : Sys σ :=
  match (s.check_stop_now c ec).1 with
  | some e => self.upcall e cont (s.check_stop_now c ec).2
  | none => (s.check_stop_now c ec).2.async_write (.ping { self with coro := .yield3 })

/-- Lines 78-125: the body inside `ASIO_CORO_REENTER`, for a connection that
resolved. -/
def ping_op.body (c : Collab σ) (self : ping_op) (ec : error_code) (cont : Bool)
    (s : Sys σ) : Sys σ :=
  match self.coro with
  | .start =>
      if (s.try_lock .ping).1 then self.send c ec cont (s.try_lock .ping).2
      else (s.try_lock .ping).2.emplace .ping (.ping { self with coro := .yield1 })
  | .yield1 => self.relock s
  | .yield2 => self.send c ec cont (s.assert_is_locked .ping)
  | .yield3 =>
      self.upcall (((s.check_stop_now c ec).1).getD ec) cont (s.check_stop_now c ec).2
  | .done => s

/-- Lines 65-126: `ping_op::operator()(ec, bytes_transferred, cont)`. -/
def ping_op.call (c : Collab σ) (self : ping_op) (ec : error_code) (cont : Bool)
    (s : Sys σ) : Sys σ :=
  if s.alive then self.body c ec cont s
  else s.emit (.complete self.h_ cont .operation_aborted)

/-- Lines 46-63: the constructor of `ping_op`, as run by `run_ping_op`:
serialize the frame, then `(*this)({}, 0, false)`. -/
def ping_op.ctor (c : Collab σ) (h : Nat) (op : opcode) (payload : ping_data)
    (s : Sys σ) : Sys σ :=
  ping_op.call c { h_ := h, fb_ := c.write_ping op payload, coro := .start }
    .success false (s.emit (.write_ping op payload))

/-! ## `idle_ping_op` -/

/-- Lines 228-235: the `upcall` label of `idle_ping_op::operator()`. -/
def idle_ping_op.upcall (s : Sys σ) : Sys σ :=
  ((((s.emit (.assert_idle_pinging s.impl.idle_pinging)).set_idle_pinging false).unlock
    .idle_ping).maybe_invoke_any [.close, .ping, .rd, .wr])

/-- Lines 212-224: with the lock held, check the stop condition, then either
jump to `upcall` or start the transport write and suspend (third yield). -/
def idle_ping_op.send (c : Collab σ) (self : idle_ping_op) (ec : error_code)
    (s : Sys σ) : Sys σ :=
  match (s.check_stop_now c ec).1 with
  | some _ => idle_ping_op.upcall (s.check_stop_now c ec).2
  | none => (s.check_stop_now c ec).2.async_write (.idle_ping { self with coro := .yield3 })

/-- Lines 187-236: the body inside `ASIO_CORO_REENTER`, for a connection that
resolved. -/
def idle_ping_op.body (c : Collab σ) (self : idle_ping_op) (ec : error_code)
    (s : Sys σ) : Sys σ :=
  match self.coro with
  | .start =>
      if (s.try_lock .idle_ping).1 then self.send c ec (s.try_lock .idle_ping).2
      else (s.try_lock .idle_ping).2.emplace .idle_ping
        (.idle_ping { self with coro := .yield1 })
  | .yield1 => self.relock s
  | .yield2 => self.send c ec (s.assert_is_locked .idle_ping)
  | .yield3 => idle_ping_op.upcall (s.check_stop_now c ec).2
  | .done => s

/-- Lines 178-237: `idle_ping_op::operator()(ec, bytes_transferred)`. -/
def idle_ping_op.call (c : Collab σ) (self : idle_ping_op) (ec : error_code)
    (s : Sys σ) : Sys σ :=
  if s.alive then self.body c ec s else s

/-- Lines 152-176: the constructor of `idle_ping_op`. -/
def idle_ping_op.ctor (c : Collab σ) (s : Sys σ) : Sys σ :=
  if ! s.impl.idle_pinging then
    idle_ping_op.call c { fb_ := c.write_ping .ping [], coro := .start } .success
      (((s.emit (.write_ping .ping [])).set_idle_pinging true))
  else s

/-! ## The blocking variants -/

/-- Lines 283-296 and 309-322: the common body of `stream::ping(payload, ec)`
and `stream::pong(payload, ec)`; `wr` is the code the transport returns from
the blocking `net::write`. -/
def stream.ping_pong (c : Collab σ) (op : opcode) (payload : ping_data)
    (ec : error_code) (wr : error_code) (s : Sys σ) : error_code × Sys σ :=
  match (s.check_stop_now c ec).1 with
  | some e => (e, (s.check_stop_now c ec).2)
  | none =>
      ((((((s.check_stop_now c ec).2.emit (.write_ping op payload)).emit
          (.write (c.write_ping op payload))).check_stop_now c wr).1).getD wr,
       ((((s.check_stop_now c ec).2.emit (.write_ping op payload)).emit
          (.write (c.write_ping op payload))).check_stop_now c wr).2)

/-- Lines 283-296: `stream::ping(ping_data const&, error_code&)`. -/
def stream.ping (c : Collab σ) (payload : ping_data) (ec : error_code) (wr : error_code)
    (s : Sys σ) : error_code × Sys σ :=
  stream.ping_pong c .ping payload ec wr s

/-- Lines 309-322: `stream::pong(ping_data const&, error_code&)`. -/
def stream.pong (c : Collab σ) (payload : ping_data) (ec : error_code) (wr : error_code)
    (s : Sys σ) : error_code × Sys σ :=
  stream.ping_pong c .pong payload ec wr s

/-! ## The other roles and the connection as a transition system -/

/-- Modelled from the spec: release path of a peer operation (source missing):
unlock, then offer the lock in the order the operation carries. -/
def peer_op.upcall (self : peer_op) (s : Sys σ) : Sys σ :=
  (s.unlock self.r.id).maybe_invoke_any self.order

/-- Modelled from the spec: with the lock held a peer operation checks the stop
condition, then either releases or starts its one transport write. -/
def peer_op.send (c : Collab σ) (self : peer_op) (ec : error_code) (s : Sys σ) : Sys σ :=
  match (s.check_stop_now c ec).1 with
  | some _ => self.upcall (s.check_stop_now c ec).2
  | none => (s.check_stop_now c ec).2.async_write (.peer { self with coro := .yield3 })

/-- Modelled from the spec: body of a peer operation (source missing), with the
state machine of spec 4.2: `AcquireLock(→Queued if blocked) → CheckStop → Write
→ CheckStop → Release&Resume`. -/
def peer_op.body (c : Collab σ) (self : peer_op) (ec : error_code) (s : Sys σ) : Sys σ :=
  match self.coro with
  | .start =>
      if (s.try_lock self.r.id).1 then self.send c ec (s.try_lock self.r.id).2
      else (s.try_lock self.r.id).2.emplace self.r.id (.peer { self with coro := .yield1 })
  | .yield1 => self.relock s
  | .yield2 => self.send c ec (s.assert_is_locked self.r.id)
  | .yield3 => self.upcall (s.check_stop_now c ec).2
  | .done => s

/-- Modelled from the spec: resumption of a peer operation; like the operations
of `ping.hpp` it does nothing once the connection is gone. -/
def peer_op.call (c : Collab σ) (self : peer_op) (ec : error_code) (s : Sys σ) : Sys σ :=
  if s.alive then self.body c ec s else s

/-- Resume a suspended operation with an error code, as the executor or the
transport does (`cont` takes its default `true`). -/
def coro_op.call (c : Collab σ) : coro_op → error_code → Sys σ → Sys σ
  | .ping p, ec, s => p.call c ec true s
  | .idle_ping p, ec, s => p.call c ec s
  | .peer p, ec, s => p.call c ec s

/-- What can happen next on one connection: a ping or pong is requested
(`run_ping_op`), the idle timer fires, another role issues a request, the
executor runs a posted operation, the transport completes an outstanding
write, or the lifecycle state of the stream changes. -/
inductive Action (σ : Type)
  | run_ping_op (h : Nat) (op : opcode) (payload : ping_data)
  | trigger_idle_ping
  | peer_request (r : peer_role) (fb : frame_buffer) (order : List RoleId)
  | run_posted (i : Nat)
  | write_done (i : Nat) (ec : error_code)
  | set_status (st : σ)

/-- One atomic step of the connection (operations of one connection never
overlap: each resumption runs to its next suspension). -/
def Sys.step (c : Collab σ) (s : Sys σ) : Action σ → Sys σ
  | .run_ping_op h op payload => ping_op.ctor c h op payload s
  | .trigger_idle_ping => idle_ping_op.ctor c s
  | .peer_request r fb order =>
      peer_op.call c { r := r, fb_ := fb, order := order, coro := .start } .success s
  | .run_posted i =>
      match s.posted.get? i with
      | none => s
      | some op => op.call c .success { s with posted := s.posted.eraseIdx i }
  | .write_done i ec =>
      match s.inflight.get? i with
      | none => s
      | some op => op.call c ec { s with inflight := s.inflight.eraseIdx i }
  | .set_status st => { s with impl := { s.impl with status := st } }

/-- Run a sequence of steps. -/
def Sys.run (c : Collab σ) (s : Sys σ) (acts : List (Action σ)) : Sys σ :=
  acts.foldl (Sys.step c) s

/-- A fresh connection: unlocked, no waiters, not idle-pinging, nothing posted
or in flight. -/
def Sys.init (st : σ) : Sys σ :=
  { alive := true
    impl :=
      { wr_block := { owner := none }
        op_close := none, op_ping := none, op_idle_ping := none, op_rd := none, op_wr := none
        idle_pinging := false
        status := st }
    posted := []
    inflight := []
    log := [] }

/-! ## Observations on logs and states -/

/-- Whether an event is the start of a transport write by the given role. -/
def Event.is_write (r : RoleId) : Event → Bool
  | .async_write q _ => decide (q = r)
  | _ => false

/-- Number of transport writes started by a role in a log. -/
def writes_of (r : RoleId) (l : List Event) : Nat :=
  l.countP (Event.is_write r)

/-- The slots resumed in a log, in order. -/
def resumed (l : List Event) : List RoleId :=
  l.filterMap (fun e => match e with
    | .invoke r => some r
    | _ => none)

/-- First role of the list whose waiter slot is occupied. -/
def impl_type.first_waiter (m : impl_type σ) (order : List RoleId) : Option RoleId :=
  order.find? (fun r => (m.slot r).isSome)

/-- Whether an operation is an idle ping. -/
def coro_op.is_idle : coro_op → Bool
  | .idle_ping _ => true
  | _ => false

/-- Number of idle-ping operations held by a waiter slot (0 or 1). -/
def idle_in (v : saved_handler) : Nat :=
  match v with
  | some op => if op.is_idle then 1 else 0
  | none => 0

/-- Number of idle-ping operations that were started and have not finished:
those saved in a waiter slot, posted to the executor, or writing. -/
def Sys.idle_pending (s : Sys σ) : Nat :=
  idle_in s.impl.op_close + idle_in s.impl.op_ping + idle_in s.impl.op_idle_ping
    + idle_in s.impl.op_rd + idle_in s.impl.op_wr
    + s.posted.countP coro_op.is_idle + s.inflight.countP coro_op.is_idle

/-- The operation as it is posted after having been woken (second yield). -/
def coro_op.woken : coro_op → coro_op
  | .ping p => .ping { p with coro := .yield2 }
  | .idle_ping p => .idle_ping { p with coro := .yield2 }
  | .peer p => .peer { p with coro := .yield2 }

/-- Invariant of a live connection between two steps, and (with `k = 1`) while
an idle ping is running: every slot holds an operation of its own role; at
most one operation is posted or writing, it owns the lock, and it is suspended
at the matching yield; the idle flag is set exactly when one idle ping is
pending or running; no assertion has failed. -/
structure Inv (k : Nat) (s : Sys σ) : Prop where
  alive : s.alive = true
  slots : ∀ r op, s.impl.slot r = some op → op.role = r
  pending :
    (s.posted = [] ∧ s.inflight = [])
    ∨ (∃ op, s.posted = [op] ∧ s.inflight = []
        ∧ s.impl.wr_block.owner = some op.role ∧ op.coro = .yield2)
    ∨ (∃ op, s.posted = [] ∧ s.inflight = [op]
        ∧ s.impl.wr_block.owner = some op.role ∧ op.coro = .yield3)
  idle : s.idle_pending + k = if s.impl.idle_pinging then 1 else 0
  asserts : ∀ e ∈ s.log, e ≠ .assert_idle_pinging false ∧ e ≠ .assert_is_locked false

/-- The events of one pass of the resumption dispatcher over the listed roles:
nothing if no listed slot is occupied, otherwise the first occupied slot is
invoked and the operation found there takes the lock and posts itself. -/
def dispatch_events (m : impl_type σ) (order : List RoleId) : List Event :=
  match m.first_waiter order with
  | none => []
  | some r =>
      match m.slot r with
      | none => []
      | some op => [.invoke r, .lock op.role, .post op.role]

/-- A stop-condition check over a numeric lifecycle state, used for examples:
state 0 is open and reports a stop only for a failed write; any other state
reports `operation_aborted`. -/
def demo : Collab Nat :=
  { write_ping := fun op payload => (if op = .ping then 137 else 138) :: payload.length :: payload
    check_stop_now := fun st ec =>
      if st = 0 then (if ec = .success then (none, st) else (some ec, 1))
      else (some .operation_aborted, st) }

/-! ## Example states and schedules -/

/-- An open connection whose weak reference has expired. -/
def demo_gone : Sys Nat :=
  { Sys.init 0 with alive := false }

/-- An open connection on which the Write role holds the lock. -/
def demo_wr_locked : Sys Nat :=
  { Sys.init 0 with impl := { (Sys.init 0).impl with wr_block := { owner := some .wr } } }

/-- A user write holds the lock while the idle timer fires twice; the stream is
then closed, the user write finishes and wakes the queued idle ping, which
runs. -/
def demo_two_triggers : List (Action Nat) :=
  [.peer_request .wr [9] [.close, .idle_ping, .rd, .ping], .trigger_idle_ping,
    .trigger_idle_ping, .set_status 1, .write_done 0 .success, .run_posted 0]

/-- An idle ping holds the lock; Close, Ping and Write are queued. -/
def demo_queued : Sys Nat :=
  { Sys.init 0 with
    impl :=
      { (Sys.init 0).impl with
        wr_block := { owner := some .idle_ping }
        op_close := some (.peer { r := .close, fb_ := [8], order := [], coro := .yield1 })
        op_ping := some (.ping { h_ := 1, fb_ := [137, 0], coro := .yield1 })
        op_wr := some (.peer { r := .wr, fb_ := [9], order := [], coro := .yield1 })
        idle_pinging := true } }

/-- An idle ping holds the lock; only Ping is queued. -/
def demo_ping_queued : Sys Nat :=
  { Sys.init 0 with
    impl :=
      { (Sys.init 0).impl with
        wr_block := { owner := some .idle_ping }
        op_ping := some (.ping { h_ := 1, fb_ := [137, 0], coro := .yield1 })
        idle_pinging := true } }

/-- The state after the first two steps of `demo_two_triggers`: a user write is
in flight and the first idle ping is queued behind it. -/
def demo_idle_queued : Sys Nat :=
  (Sys.init 0).run demo (demo_two_triggers.take 2)

/-- The executor is about to run an idle ping that was woken and posted: it
owns the lock. -/
def demo_idle_posted : Sys Nat :=
  { Sys.init 0 with
    impl :=
      { (Sys.init 0).impl with
        wr_block := { owner := some .idle_ping }
        idle_pinging := true } }

/-! ## Basic facts about the primitives -/

theorem slot_set_slot (m : impl_type σ) (r q : RoleId) (v : saved_handler) :
    (m.set_slot r v).slot q = if q = r then v else m.slot q := by
  cases r <;> cases q <;> simp [impl_type.set_slot, impl_type.slot]

theorem set_slot_wr_block (m : impl_type σ) (r : RoleId) (v : saved_handler) :
    (m.set_slot r v).wr_block = m.wr_block := by
  cases r <;> rfl

theorem set_slot_idle_pinging (m : impl_type σ) (r : RoleId) (v : saved_handler) :
    (m.set_slot r v).idle_pinging = m.idle_pinging := by
  cases r <;> rfl

theorem invoke_log (s : Sys σ) (r : RoleId) (op : coro_op) :
    (s.invoke r op).log = s.log ++ [.invoke r, .lock op.role, .post op.role] := by
  cases op <;>
    simp [Sys.invoke, coro_op.invoke_saved, ping_op.relock, idle_ping_op.relock,
      peer_op.relock, Sys.post, Sys.lock, Sys.emit, coro_op.role]

theorem invoke_slot (s : Sys σ) (r q : RoleId) (op : coro_op) :
    (s.invoke r op).impl.slot q = if q = r then none else s.impl.slot q := by
  cases op <;>
    simp [Sys.invoke, coro_op.invoke_saved, ping_op.relock, idle_ping_op.relock,
      peer_op.relock, Sys.post, Sys.lock, Sys.emit, impl_type.slot, ← slot_set_slot] <;>
    cases r <;> cases q <;> simp [impl_type.set_slot]

theorem invoke_owner (s : Sys σ) (r : RoleId) (op : coro_op) :
    (s.invoke r op).impl.wr_block.owner = some op.role := by
  cases op <;>
    simp [Sys.invoke, coro_op.invoke_saved, ping_op.relock, idle_ping_op.relock,
      peer_op.relock, Sys.post, Sys.lock, Sys.emit, soft_mutex.lock, coro_op.role]

theorem invoke_idle_pinging (s : Sys σ) (r : RoleId) (op : coro_op) :
    (s.invoke r op).impl.idle_pinging = s.impl.idle_pinging := by
  cases op <;>
    simp [Sys.invoke, coro_op.invoke_saved, ping_op.relock, idle_ping_op.relock,
      peer_op.relock, Sys.post, Sys.lock, Sys.emit, set_slot_idle_pinging]

theorem maybe_invoke_any_eq (order : List RoleId) (s : Sys σ) :
    s.maybe_invoke_any order =
      match s.impl.first_waiter order with
      | none => s
      | some r =>
          match s.impl.slot r with
          | none => s
          | some op => s.invoke r op := by
  induction order with
  | nil => simp [Sys.maybe_invoke_any, impl_type.first_waiter]
  | cons r rs ih =>
      cases h : s.impl.slot r with
      | none =>
          simp [Sys.maybe_invoke_any, Sys.maybe_invoke, impl_type.first_waiter, h,
            List.find?_cons]
          simpa [impl_type.first_waiter] using ih
      | some op =>
          simp [Sys.maybe_invoke_any, Sys.maybe_invoke, impl_type.first_waiter, h,
            List.find?_cons]

theorem first_waiter_slot (m : impl_type σ) (order : List RoleId) (r : RoleId)
    (h : m.first_waiter order = some r) : ∃ op, m.slot r = some op := by
  have := List.find?_some h
  simpa [Option.isSome_iff_exists] using this

theorem maybe_invoke_any_log (order : List RoleId) (s : Sys σ) :
    (s.maybe_invoke_any order).log = s.log ++ dispatch_events s.impl order := by
  rw [maybe_invoke_any_eq]
  unfold dispatch_events
  cases h : s.impl.first_waiter order with
  | none => simp
  | some r =>
      obtain ⟨op, hop⟩ := first_waiter_slot _ _ _ h
      simp [hop, invoke_log]

theorem maybe_invoke_any_slot (order : List RoleId) (s : Sys σ) (q : RoleId) :
    (s.maybe_invoke_any order).impl.slot q =
      if s.impl.first_waiter order = some q then none else s.impl.slot q := by
  rw [maybe_invoke_any_eq]
  cases h : s.impl.first_waiter order with
  | none => simp
  | some r =>
      obtain ⟨op, hop⟩ := first_waiter_slot _ _ _ h
      simp [hop, invoke_slot, eq_comm]

theorem maybe_invoke_any_idle_pinging (order : List RoleId) (s : Sys σ) :
    (s.maybe_invoke_any order).impl.idle_pinging = s.impl.idle_pinging := by
  rw [maybe_invoke_any_eq]
  cases h : s.impl.first_waiter order with
  | none => simp
  | some r =>
      obtain ⟨op, hop⟩ := first_waiter_slot _ _ _ h
      simp [hop, invoke_idle_pinging]

theorem resumed_append (l m : List Event) : resumed (l ++ m) = resumed l ++ resumed m := by
  simp [resumed]

theorem resumed_dispatch_events (m : impl_type σ) (order : List RoleId) :
    resumed (dispatch_events m order) = (m.first_waiter order).toList := by
  unfold dispatch_events
  cases h : m.first_waiter order with
  | none => simp [resumed]
  | some r =>
      obtain ⟨op, hop⟩ := first_waiter_slot _ _ _ h
      simp [hop, resumed]

/-! ## Release paths -/

theorem emit_impl (s : Sys σ) (e : Event) : (s.emit e).impl = s.impl := rfl

theorem unlock_slot (s : Sys σ) (r q : RoleId) : (s.unlock r).impl.slot q = s.impl.slot q := by
  cases q <;> rfl

theorem set_idle_pinging_slot (s : Sys σ) (b : Bool) (q : RoleId) :
    (s.set_idle_pinging b).impl.slot q = s.impl.slot q := by
  cases q <;> rfl

theorem first_waiter_congr (m n : impl_type σ) (order : List RoleId)
    (h : ∀ q, m.slot q = n.slot q) : m.first_waiter order = n.first_waiter order := by
  simp [impl_type.first_waiter, h]

theorem ping_upcall_slot (self : ping_op) (ec : error_code) (cont : Bool) (s : Sys σ)
    (q : RoleId) :
    (self.upcall ec cont s).impl.slot q =
      if s.impl.first_waiter [.close, .idle_ping, .rd, .wr] = some q then none
      else s.impl.slot q := by
  unfold ping_op.upcall
  rw [emit_impl, maybe_invoke_any_slot, unlock_slot,
    first_waiter_congr _ s.impl _ (unlock_slot s .ping)]

theorem idle_upcall_slot (s : Sys σ) (q : RoleId) :
    (idle_ping_op.upcall s).impl.slot q =
      if s.impl.first_waiter [.close, .ping, .rd, .wr] = some q then none
      else s.impl.slot q := by
  unfold idle_ping_op.upcall
  rw [maybe_invoke_any_slot, unlock_slot, set_idle_pinging_slot, emit_impl,
    first_waiter_congr _ s.impl _ (fun q => by
      rw [unlock_slot, set_idle_pinging_slot, emit_impl])]

theorem ping_upcall_log (self : ping_op) (ec : error_code) (cont : Bool) (s : Sys σ) :
    (self.upcall ec cont s).log =
      s.log ++ [.unlock .ping]
        ++ dispatch_events s.impl [.close, .idle_ping, .rd, .wr]
        ++ [.complete self.h_ cont ec] := by
  simp [ping_op.upcall, Sys.emit, maybe_invoke_any_log, Sys.unlock, dispatch_events,
    impl_type.first_waiter, impl_type.slot]

theorem idle_upcall_log (s : Sys σ) :
    (idle_ping_op.upcall s).log =
      s.log ++ [.assert_idle_pinging s.impl.idle_pinging, .set_idle_pinging false,
          .unlock .idle_ping]
        ++ dispatch_events s.impl [.close, .ping, .rd, .wr] := by
  simp [idle_ping_op.upcall, Sys.emit, maybe_invoke_any_log, Sys.unlock, dispatch_events,
    impl_type.first_waiter, impl_type.slot, Sys.set_idle_pinging]

theorem idle_upcall_idle_pinging (s : Sys σ) :
    (idle_ping_op.upcall s).impl.idle_pinging = false := by
  simp [idle_ping_op.upcall, maybe_invoke_any_idle_pinging, Sys.unlock, Sys.emit,
    Sys.set_idle_pinging]

theorem dispatch_events_mem (m : impl_type σ) (order : List RoleId) (e : Event)
    (h : e ∈ dispatch_events m order) :
    (∃ r, e = .invoke r) ∨ (∃ r, e = .lock r) ∨ (∃ r, e = .post r) := by
  unfold dispatch_events at h
  cases hf : m.first_waiter order with
  | none => simp [hf] at h
  | some r =>
      obtain ⟨op, hop⟩ := first_waiter_slot _ _ _ hf
      simp [hf, hop] at h
      rcases h with h | h | h
      · exact Or.inl ⟨_, h⟩
      · exact Or.inr (Or.inl ⟨_, h⟩)
      · exact Or.inr (Or.inr ⟨_, h⟩)

/-! ## Claims about a single resumption -/

/-- C3: when `ping_op` releases the lock the slots are offered in the order
Close, IdlePing, Read, Write, and when `idle_ping_op` releases in the order
Close, Ping, Read, Write; exactly the first occupied slot in that order is
resumed (its slot is emptied, every other slot keeps its content), none if all
are empty.  So with Close, Ping and Write queued an idle-ping release resumes
Close and leaves Ping and Write queued; with Close empty and Ping queued it
resumes Ping. -/
theorem C3_resumption_priority (self : ping_op) (ec : error_code) (cont : Bool) (s : Sys σ) :
    (resumed (self.upcall ec cont s).log =
        resumed s.log ++ (s.impl.first_waiter [.close, .idle_ping, .rd, .wr]).toList
      ∧ ∀ q, (self.upcall ec cont s).impl.slot q =
          if s.impl.first_waiter [.close, .idle_ping, .rd, .wr] = some q then none
          else s.impl.slot q)
    ∧ (resumed (idle_ping_op.upcall s).log =
        resumed s.log ++ (s.impl.first_waiter [.close, .ping, .rd, .wr]).toList
      ∧ ∀ q, (idle_ping_op.upcall s).impl.slot q =
          if s.impl.first_waiter [.close, .ping, .rd, .wr] = some q then none
          else s.impl.slot q)
    ∧ (s.impl.wr_block.owner = some .idle_ping → s.impl.op_close ≠ none →
        s.impl.op_ping ≠ none → s.impl.op_wr ≠ none →
        resumed (idle_ping_op.upcall s).log = resumed s.log ++ [.close]
          ∧ (idle_ping_op.upcall s).impl.op_close = none
          ∧ (idle_ping_op.upcall s).impl.op_ping = s.impl.op_ping
          ∧ (idle_ping_op.upcall s).impl.op_wr = s.impl.op_wr)
    ∧ (s.impl.op_close = none → s.impl.op_ping ≠ none →
        resumed (idle_ping_op.upcall s).log = resumed s.log ++ [.ping]
          ∧ (idle_ping_op.upcall s).impl.op_ping = none) := by
  have hp := ping_upcall_slot self ec cont s
  have hi := idle_upcall_slot s
  have hil : resumed (idle_ping_op.upcall s).log =
        resumed s.log ++ (s.impl.first_waiter [.close, .ping, .rd, .wr]).toList := by
    rw [idle_upcall_log, resumed_append, resumed_append, resumed_dispatch_events]
    simp [resumed]
  refine ⟨⟨?_, hp⟩, ⟨hil, hi⟩, ?_, ?_⟩
  · rw [ping_upcall_log, resumed_append, resumed_append, resumed_append,
      resumed_dispatch_events]
    simp [resumed]
  · intro _ hc hpg hw
    have hf : s.impl.first_waiter [.close, .ping, .rd, .wr] = some .close := by
      obtain ⟨x, hx⟩ := Option.ne_none_iff_exists.mp hc
      simp [impl_type.first_waiter, impl_type.slot, List.find?_cons, ← hx]
    refine ⟨by rw [hil, hf]; rfl, ?_, ?_, ?_⟩
    · simpa [impl_type.slot, hf] using hi .close
    · simpa [impl_type.slot, hf] using hi .ping
    · simpa [impl_type.slot, hf] using hi .wr
  · intro hc hpg
    have hf : s.impl.first_waiter [.close, .ping, .rd, .wr] = some .ping := by
      obtain ⟨x, hx⟩ := Option.ne_none_iff_exists.mp hpg
      simp [impl_type.first_waiter, impl_type.slot, List.find?_cons, ← hx, hc]
    refine ⟨by rw [hil, hf]; rfl, ?_⟩
    simpa [impl_type.slot, hf] using hi .ping

/-- C5: a resumption of `ping_op` or `idle_ping_op`, at any coroutine state, that
finds the weak connection reference expired finishes at once: the lock, the
waiter slots, the `idle_pinging` flag, the executor queue and the transport
are untouched; `ping_op` only completes its handler with `operation_aborted`,
and `idle_ping_op` does nothing at all. -/
theorem C5_cancellation_safety (c : Collab σ) (p : ping_op) (q : idle_ping_op)
    (ec : error_code) (cont : Bool) (s : Sys σ) (hgone : s.alive = false) :
    (p.call c ec cont s).impl = s.impl
    ∧ (p.call c ec cont s).posted = s.posted
    ∧ (p.call c ec cont s).inflight = s.inflight
    ∧ (p.call c ec cont s).log = s.log ++ [.complete p.h_ cont .operation_aborted]
    ∧ q.call c ec s = s := by
  simp [ping_op.call, idle_ping_op.call, hgone, Sys.emit]

theorem check_stop_now_log (c : Collab σ) (ec : error_code) (s : Sys σ) :
    (s.check_stop_now c ec).2.log
      = s.log ++ [.check_stop_now (c.check_stop_now s.impl.status ec).1] := rfl

theorem check_stop_now_fst (c : Collab σ) (ec : error_code) (s : Sys σ) :
    (s.check_stop_now c ec).1 = (c.check_stop_now s.impl.status ec).1 := rfl

theorem check_stop_now_slot (c : Collab σ) (ec : error_code) (s : Sys σ) (q : RoleId) :
    (s.check_stop_now c ec).2.impl.slot q = s.impl.slot q := by
  cases q <;> rfl

theorem dispatch_events_congr (m n : impl_type σ) (order : List RoleId)
    (h : ∀ q, m.slot q = n.slot q) : dispatch_events m order = dispatch_events n order := by
  unfold dispatch_events
  rw [first_waiter_congr m n order h]
  cases n.first_waiter order with
  | none => rfl
  | some r => simp [h r]

theorem try_lock_free (s : Sys σ) (r : RoleId) (h : s.impl.wr_block.owner = none) :
    (s.try_lock r).1 = true
    ∧ (s.try_lock r).2.log = s.log ++ [.try_lock r true]
    ∧ (s.try_lock r).2.impl.wr_block.owner = some r
    ∧ (s.try_lock r).2.impl.status = s.impl.status
    ∧ (s.try_lock r).2.impl.idle_pinging = s.impl.idle_pinging
    ∧ (∀ q, (s.try_lock r).2.impl.slot q = s.impl.slot q)
    ∧ (s.try_lock r).2.posted = s.posted ∧ (s.try_lock r).2.inflight = s.inflight
    ∧ (s.try_lock r).2.alive = s.alive := by
  refine ⟨?_, ?_, ?_, ?_, ?_, ?_, ?_, ?_, ?_⟩ <;>
    simp [Sys.try_lock, soft_mutex.try_lock, h, Sys.emit]
  intro q
  cases q <;> rfl

theorem try_lock_busy (s : Sys σ) (r : RoleId) (h : s.impl.wr_block.owner ≠ none) :
    (s.try_lock r).1 = false
    ∧ (s.try_lock r).2.log = s.log ++ [.try_lock r false]
    ∧ (s.try_lock r).2.impl = s.impl
    ∧ (s.try_lock r).2.posted = s.posted ∧ (s.try_lock r).2.inflight = s.inflight
    ∧ (s.try_lock r).2.alive = s.alive := by
  refine ⟨?_, ?_, ?_, ?_, ?_, ?_⟩ <;>
    simp [Sys.try_lock, soft_mutex.try_lock, h, Sys.emit]

theorem idle_release_log (c : Collab σ) (ec : error_code) (t s : Sys σ) (pre : List Event)
    (hlog : t.log = s.log ++ pre) (hslot : ∀ q, t.impl.slot q = s.impl.slot q)
    (hflag : t.impl.idle_pinging = s.impl.idle_pinging) :
    (idle_ping_op.upcall (t.check_stop_now c ec).2).log
      = s.log ++ (pre ++ [.check_stop_now (c.check_stop_now t.impl.status ec).1,
          .assert_idle_pinging s.impl.idle_pinging])
        ++ [.set_idle_pinging false, .unlock .idle_ping]
        ++ dispatch_events s.impl [.close, .ping, .rd, .wr] := by
  rw [idle_upcall_log, check_stop_now_log,
    dispatch_events_congr _ s.impl _ (fun q => (check_stop_now_slot c ec t q).trans (hslot q)),
    hlog]
  have : (t.check_stop_now c ec).2.impl.idle_pinging = s.impl.idle_pinging := hflag
  simp [this]

/-- C4: every run of `idle_ping_op` on a live connection that reaches its
release path (a stop reported before the write, or the resumption after the
write whatever its error code and whatever the second stop check says) ends
with `idle_pinging` false, and the flag is cleared before the lock is unlocked
and before any waiter is resumed. -/
theorem C4_idle_flag_cleared (c : Collab σ) (self : idle_ping_op) (ec : error_code)
    (s : Sys σ) (halive : s.alive = true)
    (hrel : self.coro = .yield3 ∨
      ((self.coro = .yield2 ∨ (self.coro = .start ∧ s.impl.wr_block.owner = none)) ∧
        (c.check_stop_now s.impl.status ec).1 ≠ none)) :
    (self.call c ec s).impl.idle_pinging = false
    ∧ ∃ pre post,
        (self.call c ec s).log
          = s.log ++ pre ++ [.set_idle_pinging false, .unlock .idle_ping] ++ post
        ∧ (∀ e ∈ pre, (∀ r, e ≠ .unlock r) ∧ (∀ r, e ≠ .invoke r)
            ∧ (∀ b, e ≠ .set_idle_pinging b))
        ∧ (∀ e ∈ post, (∀ r, e ≠ .unlock r) ∧ (∀ b, e ≠ .set_idle_pinging b)) := by
  have hpost : ∀ e ∈ dispatch_events s.impl [.close, .ping, .rd, .wr],
      (∀ r, e ≠ .unlock r) ∧ (∀ b, e ≠ .set_idle_pinging b) := by
    intro e he
    rcases dispatch_events_mem _ _ e he with ⟨r, rfl⟩ | ⟨r, rfl⟩ | ⟨r, rfl⟩ <;> simp
  rcases hrel with h3 | ⟨h2 | ⟨h0, hfree⟩, hstop⟩
  · have hcall : self.call c ec s = idle_ping_op.upcall (s.check_stop_now c ec).2 := by
      simp [idle_ping_op.call, halive, idle_ping_op.body, h3]
    rw [hcall]
    refine ⟨idle_upcall_idle_pinging _, _, _,
      idle_release_log c ec s s [] (by simp) (fun _ => rfl) rfl, ?_, hpost⟩
    simp
  · obtain ⟨e, he⟩ := Option.ne_none_iff_exists.mp hstop
    have hfst : ((s.assert_is_locked .idle_ping).check_stop_now c ec).1 = some e := he.symm
    have hcall : self.call c ec s
        = idle_ping_op.upcall ((s.assert_is_locked .idle_ping).check_stop_now c ec).2 := by
      simp [idle_ping_op.call, halive, idle_ping_op.body, h2, idle_ping_op.send, hfst]
    rw [hcall]
    refine ⟨idle_upcall_idle_pinging _, _, _,
      idle_release_log c ec _ s [.assert_is_locked (s.impl.wr_block.is_locked .idle_ping)]
        rfl (fun _ => rfl) rfl, ?_, hpost⟩
    simp
  · obtain ⟨e, he⟩ := Option.ne_none_iff_exists.mp hstop
    obtain ⟨hlock, hlog, -, hst, hflag, hslot, -⟩ := try_lock_free s .idle_ping hfree
    have hfst : ((s.try_lock .idle_ping).2.check_stop_now c ec).1 = some e := by
      rw [check_stop_now_fst, hst]; exact he.symm
    have hcall : self.call c ec s
        = idle_ping_op.upcall ((s.try_lock .idle_ping).2.check_stop_now c ec).2 := by
      simp [idle_ping_op.call, halive, idle_ping_op.body, h0, idle_ping_op.send, hlock, hfst]
    rw [hcall]
    refine ⟨idle_upcall_idle_pinging _, _, _,
      idle_release_log c ec _ s [.try_lock .idle_ping true] hlog hslot hflag, ?_, hpost⟩
    simp

/-! ## The blocking variants -/

theorem ping_pong_stop (c : Collab σ) (op : opcode) (payload : ping_data)
    (ec wr e : error_code) (s : Sys σ) (h : (c.check_stop_now s.impl.status ec).1 = some e) :
    (stream.ping_pong c op payload ec wr s).1 = e
    ∧ (stream.ping_pong c op payload ec wr s).2.log = s.log ++ [.check_stop_now (some e)] := by
  have hfst : (s.check_stop_now c ec).1 = some e := h
  simp [stream.ping_pong, hfst, check_stop_now_log, h]

theorem ping_pong_go (c : Collab σ) (op : opcode) (payload : ping_data)
    (ec wr : error_code) (s : Sys σ) (h : (c.check_stop_now s.impl.status ec).1 = none) :
    (stream.ping_pong c op payload ec wr s).1
        = ((c.check_stop_now (c.check_stop_now s.impl.status ec).2 wr).1).getD wr
    ∧ (stream.ping_pong c op payload ec wr s).2.log
        = s.log ++ [.check_stop_now none, .write_ping op payload,
            .write (c.write_ping op payload),
            .check_stop_now (c.check_stop_now (c.check_stop_now s.impl.status ec).2 wr).1] := by
  have hfst : (s.check_stop_now c ec).1 = none := h
  simp [stream.ping_pong, hfst, check_stop_now_log, h, Sys.emit, check_stop_now_fst]
  simp [Sys.check_stop_now, Sys.emit, h]

theorem ping_pong_lock (c : Collab σ) (op : opcode) (payload : ping_data)
    (ec wr : error_code) (s : Sys σ) :
    (stream.ping_pong c op payload ec wr s).2.impl.wr_block = s.impl.wr_block
    ∧ (∀ q, (stream.ping_pong c op payload ec wr s).2.impl.slot q = s.impl.slot q)
    ∧ (stream.ping_pong c op payload ec wr s).2.impl.idle_pinging = s.impl.idle_pinging
    ∧ (stream.ping_pong c op payload ec wr s).2.posted = s.posted
    ∧ (stream.ping_pong c op payload ec wr s).2.inflight = s.inflight := by
  unfold stream.ping_pong
  split <;> exact ⟨rfl, fun q => by cases q <;> rfl, rfl, rfl, rfl⟩

/-- C7 (amended): the blocking `ping(payload, ec)` and `pong(payload, ec)` check
the stop condition, serialize, write and check again before returning, and
never acquire or release the write lock: after the call the lock owner, the
waiter slots, the idle flag, the executor queue and the outstanding writes are
what they were before, and whenever the first check reports no stop the frame
is written, whoever owns the lock. -/
theorem C7_blocking_variants_ignore_lock (c : Collab σ) (payload : ping_data)
    (ec wr : error_code) (s : Sys σ) :
    ((stream.ping c payload ec wr s).2.impl.wr_block = s.impl.wr_block
      ∧ (∀ q, (stream.ping c payload ec wr s).2.impl.slot q = s.impl.slot q)
      ∧ ((c.check_stop_now s.impl.status ec).1 = none →
          (stream.ping c payload ec wr s).2.log
            = s.log ++ [.check_stop_now none, .write_ping .ping payload,
                .write (c.write_ping .ping payload),
                .check_stop_now
                  (c.check_stop_now (c.check_stop_now s.impl.status ec).2 wr).1]))
    ∧ ((stream.pong c payload ec wr s).2.impl.wr_block = s.impl.wr_block
      ∧ (∀ q, (stream.pong c payload ec wr s).2.impl.slot q = s.impl.slot q)
      ∧ ((c.check_stop_now s.impl.status ec).1 = none →
          (stream.pong c payload ec wr s).2.log
            = s.log ++ [.check_stop_now none, .write_ping .pong payload,
                .write (c.write_ping .pong payload),
                .check_stop_now
                  (c.check_stop_now (c.check_stop_now s.impl.status ec).2 wr).1])) := by
  refine ⟨⟨?_, ?_, ?_⟩, ⟨?_, ?_, ?_⟩⟩
  · exact (ping_pong_lock c .ping payload ec wr s).1
  · exact (ping_pong_lock c .ping payload ec wr s).2.1
  · exact fun h => (ping_pong_go c .ping payload ec wr s h).2
  · exact (ping_pong_lock c .pong payload ec wr s).1
  · exact (ping_pong_lock c .pong payload ec wr s).2.1
  · exact fun h => (ping_pong_go c .pong payload ec wr s h).2

/-- C8: when both stop-condition checks report no stop and the transport write
succeeds, `ping(payload, ec)` performs exactly one transport write, of the
frame encoder's output for (ping, payload), and returns success; `pong` does
the same with opcode pong.  When the first check reports a stop, nothing is
serialized or written and `ec` is the error of that check. -/
theorem C8_end_to_end_send (c : Collab σ) (payload : ping_data) (ec : error_code)
    (s : Sys σ) :
    ((c.check_stop_now s.impl.status ec).1 = none →
      (c.check_stop_now (c.check_stop_now s.impl.status ec).2 .success).1 = none →
        ((stream.ping c payload ec .success s).1 = .success
          ∧ (stream.ping c payload ec .success s).2.log
              = s.log ++ [.check_stop_now none, .write_ping .ping payload,
                  .write (c.write_ping .ping payload), .check_stop_now none])
        ∧ ((stream.pong c payload ec .success s).1 = .success
          ∧ (stream.pong c payload ec .success s).2.log
              = s.log ++ [.check_stop_now none, .write_ping .pong payload,
                  .write (c.write_ping .pong payload), .check_stop_now none]))
    ∧ (∀ e wr, (c.check_stop_now s.impl.status ec).1 = some e →
        ((stream.ping c payload ec wr s).1 = e
          ∧ (stream.ping c payload ec wr s).2.log = s.log ++ [.check_stop_now (some e)])
        ∧ ((stream.pong c payload ec wr s).1 = e
          ∧ (stream.pong c payload ec wr s).2.log = s.log ++ [.check_stop_now (some e)])) := by
  refine ⟨fun h1 h2 => ⟨?_, ?_⟩, fun e wr h => ⟨?_, ?_⟩⟩
  · have := ping_pong_go c .ping payload ec .success s h1
    rw [h2] at this
    exact this
  · have := ping_pong_go c .pong payload ec .success s h1
    rw [h2] at this
    exact this
  · exact ping_pong_stop c .ping payload ec wr e s h
  · exact ping_pong_stop c .pong payload ec wr e s h

/-! ## Transport writes started by one resumption -/

theorem writes_of_append (r : RoleId) (l m : List Event) :
    writes_of r (l ++ m) = writes_of r l + writes_of r m := by
  simp [writes_of, List.countP_append]

theorem writes_of_cons (r : RoleId) (e : Event) (l : List Event) :
    writes_of r (e :: l) = (if e.is_write r then 1 else 0) + writes_of r l := by
  simp [writes_of, List.countP_cons, Nat.add_comm]

theorem writes_of_nil (r : RoleId) : writes_of r [] = 0 := rfl

theorem writes_of_dispatch_events (r : RoleId) (m : impl_type σ) (order : List RoleId) :
    writes_of r (dispatch_events m order) = 0 := by
  unfold writes_of
  rw [List.countP_eq_zero]
  intro e he
  rcases dispatch_events_mem m order e he with ⟨q, rfl⟩ | ⟨q, rfl⟩ | ⟨q, rfl⟩ <;>
    simp [Event.is_write]

theorem invoke_inflight (s : Sys σ) (r : RoleId) (op : coro_op) :
    (s.invoke r op).inflight = s.inflight := by
  cases op <;> rfl

theorem invoke_alive (s : Sys σ) (r : RoleId) (op : coro_op) :
    (s.invoke r op).alive = s.alive := by
  cases op <;> rfl

theorem maybe_invoke_any_inflight (order : List RoleId) (s : Sys σ) :
    (s.maybe_invoke_any order).inflight = s.inflight := by
  rw [maybe_invoke_any_eq]
  cases h : s.impl.first_waiter order with
  | none => simp
  | some r =>
      obtain ⟨op, hop⟩ := first_waiter_slot _ _ _ h
      simp [hop, invoke_inflight]

theorem ping_upcall_inflight (self : ping_op) (ec : error_code) (cont : Bool) (s : Sys σ) :
    (self.upcall ec cont s).inflight = s.inflight := by
  unfold ping_op.upcall
  show (Sys.maybe_invoke_any _ _).inflight = _
  rw [maybe_invoke_any_inflight]
  rfl

theorem idle_upcall_inflight (s : Sys σ) : (idle_ping_op.upcall s).inflight = s.inflight := by
  unfold idle_ping_op.upcall
  rw [maybe_invoke_any_inflight]
  rfl

theorem ping_release_log (c : Collab σ) (self : ping_op) (ec : error_code) (cont : Bool)
    (t s : Sys σ) (pre : List Event) (e : error_code)
    (hlog : t.log = s.log ++ pre) (hslot : ∀ q, t.impl.slot q = s.impl.slot q) :
    (self.upcall e cont (t.check_stop_now c ec).2).log
      = s.log ++ pre ++ [.check_stop_now (c.check_stop_now t.impl.status ec).1, .unlock .ping]
        ++ dispatch_events s.impl [.close, .idle_ping, .rd, .wr]
        ++ [.complete self.h_ cont e] := by
  rw [ping_upcall_log, check_stop_now_log,
    dispatch_events_congr _ s.impl _ (fun q => (check_stop_now_slot c ec t q).trans (hslot q)),
    hlog]
  simp

theorem ping_send_stop (c : Collab σ) (self : ping_op) (ec : error_code) (cont : Bool)
    (t : Sys σ) (e : error_code) (h : (c.check_stop_now t.impl.status ec).1 = some e) :
    self.send c ec cont t = self.upcall e cont (t.check_stop_now c ec).2 := by
  have hfst : (t.check_stop_now c ec).1 = some e := h
  simp [ping_op.send, hfst]

theorem ping_send_go (c : Collab σ) (self : ping_op) (ec : error_code) (cont : Bool)
    (t : Sys σ) (h : (c.check_stop_now t.impl.status ec).1 = none) :
    self.send c ec cont t
      = (t.check_stop_now c ec).2.async_write (.ping { self with coro := .yield3 }) := by
  have hfst : (t.check_stop_now c ec).1 = none := h
  simp [ping_op.send, hfst]

theorem idle_send_stop (c : Collab σ) (self : idle_ping_op) (ec : error_code)
    (t : Sys σ) (h : (c.check_stop_now t.impl.status ec).1 ≠ none) :
    self.send c ec t = idle_ping_op.upcall (t.check_stop_now c ec).2 := by
  obtain ⟨e, he⟩ := Option.ne_none_iff_exists.mp h
  have hfst : (t.check_stop_now c ec).1 = some e := he.symm
  simp [idle_ping_op.send, hfst]

theorem idle_send_go (c : Collab σ) (self : idle_ping_op) (ec : error_code)
    (t : Sys σ) (h : (c.check_stop_now t.impl.status ec).1 = none) :
    self.send c ec t
      = (t.check_stop_now c ec).2.async_write (.idle_ping { self with coro := .yield3 }) := by
  have hfst : (t.check_stop_now c ec).1 = none := h
  simp [idle_ping_op.send, hfst]

/-- A resumption of `ping_op` that holds the lock (a successful `try_lock` on
first entry, or the `is_locked` assertion after having been woken and posted)
continues with the stop check of lines 102-114. -/
theorem ping_locked_entry (c : Collab σ) (self : ping_op) (ec : error_code) (cont : Bool)
    (s : Sys σ) (halive : s.alive = true)
    (hlocked : (self.coro = .start ∧ s.impl.wr_block.owner = none) ∨ self.coro = .yield2) :
    ∃ t : Sys σ, self.call c ec cont s = self.send c ec cont t
      ∧ t.log = s.log ++ [if self.coro = .start then Event.try_lock .ping true
          else Event.assert_is_locked (s.impl.wr_block.is_locked .ping)]
      ∧ (∀ q, t.impl.slot q = s.impl.slot q) ∧ t.impl.status = s.impl.status
      ∧ t.impl.idle_pinging = s.impl.idle_pinging
      ∧ t.inflight = s.inflight ∧ t.posted = s.posted := by
  rcases hlocked with ⟨h0, hfree⟩ | h2
  · obtain ⟨hlock, hlog, -, hst, hflag, hslot, hp, hi, -⟩ := try_lock_free s .ping hfree
    exact ⟨(s.try_lock .ping).2, by simp [ping_op.call, halive, ping_op.body, h0, hlock],
      by simp [hlog, h0], hslot, hst, hflag, hi, hp⟩
  · exact ⟨s.assert_is_locked .ping, by simp [ping_op.call, halive, ping_op.body, h2],
      by simp [h2, Sys.assert_is_locked, Sys.emit], fun _ => rfl, rfl, rfl, rfl, rfl⟩

theorem idle_locked_entry (c : Collab σ) (self : idle_ping_op) (ec : error_code)
    (s : Sys σ) (halive : s.alive = true)
    (hlocked : (self.coro = .start ∧ s.impl.wr_block.owner = none) ∨ self.coro = .yield2) :
    ∃ t : Sys σ, self.call c ec s = self.send c ec t
      ∧ t.log = s.log ++ [if self.coro = .start then Event.try_lock .idle_ping true
          else Event.assert_is_locked (s.impl.wr_block.is_locked .idle_ping)]
      ∧ (∀ q, t.impl.slot q = s.impl.slot q) ∧ t.impl.status = s.impl.status
      ∧ t.impl.idle_pinging = s.impl.idle_pinging
      ∧ t.inflight = s.inflight ∧ t.posted = s.posted := by
  rcases hlocked with ⟨h0, hfree⟩ | h2
  · obtain ⟨hlock, hlog, -, hst, hflag, hslot, hp, hi, -⟩ := try_lock_free s .idle_ping hfree
    exact ⟨(s.try_lock .idle_ping).2,
      by simp [idle_ping_op.call, halive, idle_ping_op.body, h0, hlock],
      by simp [hlog, h0], hslot, hst, hflag, hi, hp⟩
  · exact ⟨s.assert_is_locked .idle_ping,
      by simp [idle_ping_op.call, halive, idle_ping_op.body, h2],
      by simp [h2, Sys.assert_is_locked, Sys.emit], fun _ => rfl, rfl, rfl, rfl, rfl⟩

/-- C9: a run of `ping_op` that has acquired the lock on a live connection
(first entry with the lock free, or the resumption after having been woken and
posted) checks the stop condition; on a reported stop it performs no transport
write, otherwise it starts one transport write of its buffer `fb_`, which the
constructor filled with the encoder output, and on the resumption after the
write it checks the stop condition again.  In every case the release is:
`unlock` for role Ping once, then one pass of the resumption dispatcher, then
one completion of the handler with the resulting error code, which is the
write result when the second check reports no stop. -/
theorem C9_release_always_runs (c : Collab σ) (self : ping_op) (ec : error_code)
    (cont : Bool) (s : Sys σ) (halive : s.alive = true)
    (hlocked : (self.coro = .start ∧ s.impl.wr_block.owner = none) ∨ self.coro = .yield2) :
    (∀ e, (c.check_stop_now s.impl.status ec).1 = some e →
      (self.call c ec cont s).log
        = s.log ++ [if self.coro = .start then Event.try_lock .ping true
              else Event.assert_is_locked (s.impl.wr_block.is_locked .ping)]
          ++ [.check_stop_now (some e), .unlock .ping]
          ++ dispatch_events s.impl [.close, .idle_ping, .rd, .wr]
          ++ [.complete self.h_ cont e])
    ∧ ((c.check_stop_now s.impl.status ec).1 = none →
      (self.call c ec cont s).log
        = s.log ++ [if self.coro = .start then Event.try_lock .ping true
              else Event.assert_is_locked (s.impl.wr_block.is_locked .ping)]
          ++ [.check_stop_now none, .async_write .ping self.fb_]
      ∧ (self.call c ec cont s).inflight
          = s.inflight ++ [.ping { self with coro := .yield3 }])
    ∧ (∀ (ec2 : error_code) (t : Sys σ), t.alive = true →
      (ping_op.call c { self with coro := .yield3 } ec2 true t).log
        = t.log ++ [.check_stop_now (c.check_stop_now t.impl.status ec2).1, .unlock .ping]
          ++ dispatch_events t.impl [.close, .idle_ping, .rd, .wr]
          ++ [.complete self.h_ true (((c.check_stop_now t.impl.status ec2).1).getD ec2)])
    ∧ (∀ h op payload, ping_op.ctor c h op payload s
        = ping_op.call c { h_ := h, fb_ := c.write_ping op payload, coro := .start }
            .success false (s.emit (.write_ping op payload))) := by
  obtain ⟨t, hcall, hlog, hslot, hst, -, hinfl, -⟩ := ping_locked_entry c self ec cont s halive hlocked
  refine ⟨fun e he => ?_, fun hgo => ?_, fun ec2 t ht => ?_, fun _ _ _ => rfl⟩
  · rw [hcall, ping_send_stop c self ec cont t e (hst ▸ he),
      ping_release_log c self ec cont t s _ e hlog hslot, hst, he]
  · rw [hcall, ping_send_go c self ec cont t (hst ▸ hgo)]
    refine ⟨?_, ?_⟩
    · show (t.check_stop_now c ec).2.log ++ _ = _
      rw [check_stop_now_log, hlog, hst, hgo]
      simp [coro_op.role, coro_op.fb]
    · show t.inflight ++ _ = _
      rw [hinfl]
  · have hc : ping_op.call c { self with coro := .yield3 } ec2 true t
        = ping_op.upcall { self with coro := .yield3 }
            (((t.check_stop_now c ec2).1).getD ec2) true (t.check_stop_now c ec2).2 := by
      simp [ping_op.call, ht, ping_op.body]
    rw [hc, ping_release_log c _ ec2 true t t [] _ (by simp) (fun _ => rfl)]
    simp [check_stop_now_fst]

theorem writes_of_entry (r q : RoleId) (b : Bool) (p : Prop) [Decidable p] :
    writes_of r [if p then Event.try_lock q true else Event.assert_is_locked b] = 0 := by
  split <;> rfl

/-- C6 (amended): an invocation of `ping_op` on a live connection starts a
transport write only in the one resumption in which it holds the lock and makes
the stop-condition check before the write (first entry with the lock free, or
the resumption after having been woken and posted): there it starts exactly
one write and suspends until the write is done if the check reports no stop,
and starts none and completes if the check reports a stop.  The other
resumptions (queueing behind a busy lock, being woken, finishing after the
write) start no write.  So a completed invocation has performed one write if
the check before the write reported no stop, and none if it reported a stop. -/
theorem C6_writes_per_invocation (c : Collab σ) (self : ping_op) (ec : error_code)
    (cont : Bool) (s : Sys σ) (halive : s.alive = true) :
    (self.coro = .start → s.impl.wr_block.owner ≠ none →
      writes_of .ping (self.call c ec cont s).log = writes_of .ping s.log
      ∧ (self.call c ec cont s).impl.op_ping = some (.ping { self with coro := .yield1 }))
    ∧ (self.coro = .yield1 →
      writes_of .ping (self.call c ec cont s).log = writes_of .ping s.log
      ∧ (self.call c ec cont s).posted = s.posted ++ [.ping { self with coro := .yield2 }])
    ∧ ((self.coro = .start ∧ s.impl.wr_block.owner = none) ∨ self.coro = .yield2 →
      (∀ e, (c.check_stop_now s.impl.status ec).1 = some e →
        writes_of .ping (self.call c ec cont s).log = writes_of .ping s.log
        ∧ (self.call c ec cont s).log.getLast? = some (.complete self.h_ cont e)
        ∧ (self.call c ec cont s).inflight = s.inflight)
      ∧ ((c.check_stop_now s.impl.status ec).1 = none →
        writes_of .ping (self.call c ec cont s).log = writes_of .ping s.log + 1
        ∧ (self.call c ec cont s).inflight
            = s.inflight ++ [.ping { self with coro := .yield3 }]))
    ∧ (self.coro = .yield3 →
      writes_of .ping (self.call c ec cont s).log = writes_of .ping s.log
      ∧ (self.call c ec cont s).log.getLast?
          = some (.complete self.h_ cont (((c.check_stop_now s.impl.status ec).1).getD ec))) := by
  refine ⟨fun h0 hbusy => ?_, fun h1 => ?_, fun hlocked => ⟨fun e he => ?_, fun hgo => ?_⟩,
    fun h3 => ?_⟩
  · obtain ⟨hlock, hlog, -⟩ := try_lock_busy s .ping hbusy
    have hcall : self.call c ec cont s
        = (s.try_lock .ping).2.emplace .ping (.ping { self with coro := .yield1 }) := by
      simp [ping_op.call, halive, ping_op.body, h0, hlock]
    rw [hcall]
    refine ⟨?_, rfl⟩
    show writes_of .ping ((s.try_lock .ping).2.log ++ _) = _
    rw [hlog]
    simp [writes_of_append, writes_of_cons, writes_of_nil, Event.is_write]
  · have hcall : self.call c ec cont s = self.relock s := by
      simp [ping_op.call, halive, ping_op.body, h1]
    rw [hcall]
    refine ⟨?_, rfl⟩
    show writes_of .ping (s.log ++ [.lock .ping] ++ [.post .ping]) = _
    simp [writes_of_append, writes_of_cons, writes_of_nil, Event.is_write]
  · obtain ⟨t, hcall, hlog, hslot, hst, -, hinfl, -⟩ :=
      ping_locked_entry c self ec cont s halive hlocked
    rw [hcall, ping_send_stop c self ec cont t e (hst ▸ he)]
    refine ⟨?_, ?_, ?_⟩
    · rw [ping_release_log c self ec cont t s _ e hlog hslot]
      simp only [writes_of_append, writes_of_dispatch_events, writes_of_entry]
      simp [writes_of_cons, writes_of_nil, Event.is_write]
    · rw [ping_release_log c self ec cont t s _ e hlog hslot]
      exact List.getLast?_concat _
    · rw [ping_upcall_inflight]
      exact hinfl
  · obtain ⟨t, hcall, hlog, hslot, hst, -, hinfl, -⟩ :=
      ping_locked_entry c self ec cont s halive hlocked
    rw [hcall, ping_send_go c self ec cont t (hst ▸ hgo)]
    refine ⟨?_, ?_⟩
    · show writes_of .ping ((t.check_stop_now c ec).2.log ++ _) = _
      rw [check_stop_now_log, hlog]
      simp only [writes_of_append, writes_of_entry]
      simp [writes_of_cons, writes_of_nil, Event.is_write, coro_op.role]
    · show t.inflight ++ _ = _
      rw [hinfl]
  · have hc : self.call c ec cont s
        = self.upcall (((s.check_stop_now c ec).1).getD ec) cont (s.check_stop_now c ec).2 := by
      simp [ping_op.call, halive, ping_op.body, h3]
    rw [hc, ping_release_log c _ ec cont s s [] _ (by simp) (fun _ => rfl)]
    refine ⟨?_, ?_⟩
    · simp only [writes_of_append, writes_of_dispatch_events, writes_of_cons, writes_of_nil,
        Event.is_write]
      simp
    · rw [check_stop_now_fst]
      exact List.getLast?_concat _

theorem emplace_idle_pinging (s : Sys σ) (r : RoleId) (op : coro_op) :
    (s.emplace r op).impl.idle_pinging = s.impl.idle_pinging := by
  show (s.impl.set_slot r (some op)).idle_pinging = _
  exact set_slot_idle_pinging _ _ _

/-- C2 (amended): with `idle_pinging` already true, constructing an
`idle_ping_op` changes nothing at all: no frame is serialized, the lock and
every waiter slot are unchanged, the flag stays true and no transport write is
started.  So of two trigger calls made before the first idle ping finishes the
second transmits nothing.  The first one, started with the flag false, sets the
flag and runs the operation, which starts a transport write only in the
resumption in which it holds the lock and checks the stop condition: exactly
one write if the check reports no stop, and none (finishing with the flag
cleared) if it reports a stop; its other resumptions start no write.  The pair
thus transmits at most one frame. -/
theorem C2_idle_suppression (c : Collab σ) (self : idle_ping_op) (ec : error_code)
    (s : Sys σ) :
    (s.impl.idle_pinging = true → idle_ping_op.ctor c s = s)
    ∧ (s.impl.idle_pinging = false →
        idle_ping_op.ctor c s
          = idle_ping_op.call c { fb_ := c.write_ping .ping [], coro := .start } .success
              ((s.emit (.write_ping .ping [])).set_idle_pinging true))
    ∧ (s.alive = true →
      (self.coro = .start → s.impl.wr_block.owner ≠ none →
        writes_of .idle_ping (self.call c ec s).log = writes_of .idle_ping s.log
        ∧ (self.call c ec s).impl.op_idle_ping
            = some (.idle_ping { self with coro := .yield1 })
        ∧ (self.call c ec s).impl.idle_pinging = s.impl.idle_pinging)
      ∧ (self.coro = .yield1 →
        writes_of .idle_ping (self.call c ec s).log = writes_of .idle_ping s.log
        ∧ (self.call c ec s).posted = s.posted ++ [.idle_ping { self with coro := .yield2 }]
        ∧ (self.call c ec s).impl.idle_pinging = s.impl.idle_pinging)
      ∧ ((self.coro = .start ∧ s.impl.wr_block.owner = none) ∨ self.coro = .yield2 →
        ((c.check_stop_now s.impl.status ec).1 ≠ none →
          writes_of .idle_ping (self.call c ec s).log = writes_of .idle_ping s.log
          ∧ (self.call c ec s).inflight = s.inflight
          ∧ (self.call c ec s).impl.idle_pinging = false)
        ∧ ((c.check_stop_now s.impl.status ec).1 = none →
          writes_of .idle_ping (self.call c ec s).log = writes_of .idle_ping s.log + 1
          ∧ (self.call c ec s).inflight
              = s.inflight ++ [.idle_ping { self with coro := .yield3 }]
          ∧ (self.call c ec s).impl.idle_pinging = s.impl.idle_pinging))
      ∧ (self.coro = .yield3 →
        writes_of .idle_ping (self.call c ec s).log = writes_of .idle_ping s.log
        ∧ (self.call c ec s).impl.idle_pinging = false)) := by
  refine ⟨fun h => by simp [idle_ping_op.ctor, h], fun h => by simp [idle_ping_op.ctor, h],
    fun halive => ⟨fun h0 hbusy => ?_, fun h1 => ?_,
      fun hlocked => ⟨fun hstop => ?_, fun hgo => ?_⟩, fun h3 => ?_⟩⟩
  · obtain ⟨hlock, hlog, himpl, -⟩ := try_lock_busy s .idle_ping hbusy
    have hcall : self.call c ec s
        = (s.try_lock .idle_ping).2.emplace .idle_ping
            (.idle_ping { self with coro := .yield1 }) := by
      simp [idle_ping_op.call, halive, idle_ping_op.body, h0, hlock]
    rw [hcall]
    refine ⟨?_, rfl, ?_⟩
    · show writes_of .idle_ping ((s.try_lock .idle_ping).2.log ++ _) = _
      rw [hlog]
      simp [writes_of_append, writes_of_cons, writes_of_nil, Event.is_write]
    · rw [emplace_idle_pinging, himpl]
  · have hcall : self.call c ec s = self.relock s := by
      simp [idle_ping_op.call, halive, idle_ping_op.body, h1]
    rw [hcall]
    refine ⟨?_, rfl, rfl⟩
    show writes_of .idle_ping (s.log ++ [.lock .idle_ping] ++ [.post .idle_ping]) = _
    simp [writes_of_append, writes_of_cons, writes_of_nil, Event.is_write]
  · obtain ⟨t, hcall, hlog, hslot, hst, hflag, hinfl, -⟩ :=
      idle_locked_entry c self ec s halive hlocked
    rw [hcall, idle_send_stop c self ec t (hst ▸ hstop)]
    refine ⟨?_, ?_, idle_upcall_idle_pinging _⟩
    · rw [idle_release_log c ec t s _ hlog hslot hflag]
      simp only [writes_of_append, writes_of_dispatch_events, writes_of_entry]
      simp [writes_of_cons, writes_of_nil, Event.is_write]
    · rw [idle_upcall_inflight]
      exact hinfl
  · obtain ⟨t, hcall, hlog, hslot, hst, hflag, hinfl, -⟩ :=
      idle_locked_entry c self ec s halive hlocked
    rw [hcall, idle_send_go c self ec t (hst ▸ hgo)]
    refine ⟨?_, ?_, hflag⟩
    · show writes_of .idle_ping ((t.check_stop_now c ec).2.log ++ _) = _
      rw [check_stop_now_log, hlog]
      simp only [writes_of_append, writes_of_entry]
      simp [writes_of_cons, writes_of_nil, Event.is_write, coro_op.role]
    · show t.inflight ++ _ = _
      rw [hinfl]
  · have hc : self.call c ec s = idle_ping_op.upcall (s.check_stop_now c ec).2 := by
      simp [idle_ping_op.call, halive, idle_ping_op.body, h3]
    rw [hc]
    refine ⟨?_, idle_upcall_idle_pinging _⟩
    rw [idle_release_log c ec s s [] (by simp) (fun _ => rfl) rfl]
    simp only [writes_of_append, writes_of_dispatch_events]
    simp [writes_of_cons, writes_of_nil, Event.is_write]

/-! ## The invariant of the transition system -/

theorem is_idle_iff_role (op : coro_op) : op.is_idle = true ↔ op.role = .idle_ping := by
  cases op with
  | ping p => simp [coro_op.is_idle, coro_op.role]
  | idle_ping p => simp [coro_op.is_idle, coro_op.role]
  | peer p => cases hr : p.r <;> simp [coro_op.is_idle, coro_op.role, peer_role.id, hr]

theorem idle_in_of_role (op : coro_op) : idle_in (some op) = if op.role = .idle_ping then 1 else 0 := by
  by_cases h : op.role = .idle_ping
  · simp [idle_in, h, (is_idle_iff_role op).mpr h]
  · have : op.is_idle = false := by
      cases hb : op.is_idle
      · rfl
      · exact absurd ((is_idle_iff_role op).mp hb) h
    simp [idle_in, h, this]

theorem idle_pending_eq_slots (s : Sys σ) :
    s.idle_pending = idle_in (s.impl.slot .close) + idle_in (s.impl.slot .ping)
      + idle_in (s.impl.slot .idle_ping) + idle_in (s.impl.slot .rd)
      + idle_in (s.impl.slot .wr)
      + s.posted.countP coro_op.is_idle + s.inflight.countP coro_op.is_idle := rfl

theorem idle_in_typed (m : impl_type σ) (h : ∀ r op, m.slot r = some op → op.role = r)
    (r : RoleId) (hr : r ≠ .idle_ping) : idle_in (m.slot r) = 0 := by
  cases hs : m.slot r with
  | none => rfl
  | some op =>
      rw [idle_in_of_role, h r op hs]
      simp [hr]

theorem idle_pending_typed (s : Sys σ) (h : ∀ r op, s.impl.slot r = some op → op.role = r) :
    s.idle_pending = idle_in (s.impl.slot .idle_ping)
      + s.posted.countP coro_op.is_idle + s.inflight.countP coro_op.is_idle := by
  rw [idle_pending_eq_slots, idle_in_typed _ h .close (by decide),
    idle_in_typed _ h .ping (by decide), idle_in_typed _ h .rd (by decide),
    idle_in_typed _ h .wr (by decide)]
  omega

theorem woken_role (op : coro_op) : op.woken.role = op.role := by
  cases op <;> rfl

theorem woken_coro (op : coro_op) : op.woken.coro = .yield2 := by
  cases op <;> rfl

theorem woken_is_idle (op : coro_op) : op.woken.is_idle = op.is_idle := by
  cases op <;> rfl

theorem invoke_posted (s : Sys σ) (r : RoleId) (op : coro_op) :
    (s.invoke r op).posted = s.posted ++ [op.woken] := by
  cases op <;> rfl

/-- Changes that leave the invariant alone: the slots, the queues, the idle
flag are kept, the lock owner is kept unless nothing is posted or writing, and
the new log entries are not failed assertions. -/
theorem Inv.congr {k : Nat} {s t : Sys σ} (h : Inv k s) (ha : t.alive = s.alive)
    (hsl : ∀ q, t.impl.slot q = s.impl.slot q) (hp : t.posted = s.posted)
    (hi : t.inflight = s.inflight)
    (ho : t.impl.wr_block.owner = s.impl.wr_block.owner ∨ (s.posted = [] ∧ s.inflight = []))
    (hf : t.impl.idle_pinging = s.impl.idle_pinging)
    (hl : ∀ e ∈ t.log, e ∈ s.log ∨ (e ≠ .assert_idle_pinging false ∧ e ≠ .assert_is_locked false)) :
    Inv k t := by
  refine ⟨ha.trans h.alive, fun r op hr => h.slots r op ((hsl r).symm.trans hr), ?_, ?_, ?_⟩
  · rcases ho with ho | ⟨hp0, hi0⟩
    · rw [hp, hi, ho]
      exact h.pending
    · exact Or.inl ⟨hp.trans hp0, hi.trans hi0⟩
  · rw [idle_pending_eq_slots, hsl, hsl, hsl, hsl, hsl, hp, hi, hf, ← idle_pending_eq_slots]
    exact h.idle
  · intro e he
    rcases hl e he with h1 | h1
    · exact h.asserts e h1
    · exact h1

theorem Inv.quiet_or_owned {k : Nat} {s : Sys σ} (h : Inv k s)
    (hfree : s.impl.wr_block.owner = none) : s.posted = [] ∧ s.inflight = [] := by
  rcases h.pending with hq | ⟨op, -, -, ho, -⟩ | ⟨op, -, -, ho, -⟩
  · exact hq
  · rw [hfree] at ho; cases ho
  · rw [hfree] at ho; cases ho

theorem Inv.emit {k : Nat} {s : Sys σ} (h : Inv k s) (e : Event)
    (he : e ≠ .assert_idle_pinging false ∧ e ≠ .assert_is_locked false) : Inv k (s.emit e) := by
  refine h.congr rfl (fun _ => rfl) rfl rfl (Or.inl rfl) rfl ?_
  intro x hx
  simp only [Sys.emit, List.mem_append, List.mem_singleton] at hx
  rcases hx with hx | rfl
  · exact Or.inl hx
  · exact Or.inr he

theorem Inv.check_stop_now {k : Nat} {s : Sys σ} (h : Inv k s) (c : Collab σ)
    (ec : error_code) : Inv k (s.check_stop_now c ec).2 := by
  refine h.congr rfl (check_stop_now_slot c ec s) rfl rfl (Or.inl rfl) rfl ?_
  intro x hx
  rw [check_stop_now_log] at hx
  simp only [List.mem_append, List.mem_singleton] at hx
  rcases hx with hx | rfl
  · exact Or.inl hx
  · exact Or.inr ⟨by simp, by simp⟩

theorem Inv.unlock {k : Nat} {s : Sys σ} (h : Inv k s) (r : RoleId)
    (hp : s.posted = []) (hi : s.inflight = []) : Inv k (s.unlock r) := by
  refine h.congr rfl (unlock_slot s r) rfl rfl (Or.inr ⟨hp, hi⟩) rfl ?_
  intro x hx
  simp only [Sys.unlock, Sys.emit, List.mem_append, List.mem_singleton] at hx
  rcases hx with hx | rfl
  · exact Or.inl hx
  · exact Or.inr ⟨by simp, by simp⟩

theorem Inv.flag_of_running {s : Sys σ} (h : Inv 1 s) :
    s.impl.idle_pinging = true ∧ s.idle_pending = 0 := by
  have := h.idle
  cases hf : s.impl.idle_pinging
  · rw [hf] at this; simp at this
  · rw [hf] at this
    refine ⟨rfl, ?_⟩
    simp at this
    exact this

theorem Inv.maybe_invoke_any {s : Sys σ} (h : Inv 0 s) (hp : s.posted = [])
    (hi : s.inflight = []) (order : List RoleId) : Inv 0 (s.maybe_invoke_any order) := by
  rw [maybe_invoke_any_eq]
  cases hf : s.impl.first_waiter order with
  | none => simpa using h
  | some r =>
      obtain ⟨op, hop⟩ := first_waiter_slot _ _ _ hf
      simp only [hop]
      refine ⟨(invoke_alive s r op).trans h.alive, ?_, ?_, ?_, ?_⟩
      · intro q x hq
        rw [invoke_slot] at hq
        split at hq
        · cases hq
        · exact h.slots q x hq
      · exact Or.inr (Or.inl ⟨op.woken, by rw [invoke_posted, hp]; rfl,
          by rw [invoke_inflight, hi], by rw [invoke_owner, woken_role], woken_coro op⟩)
      · have h0 := h.idle
        rw [idle_pending_eq_slots] at h0 ⊢
        rw [invoke_idle_pinging, invoke_posted, invoke_inflight]
        simp only [invoke_slot]
        have hx : idle_in (some op) = if op.is_idle then 1 else 0 := rfl
        cases r <;>
          simp [hop, List.countP_append, List.countP_cons, woken_is_idle, hx] at h0 ⊢ <;>
          (simp [idle_in] at h0 ⊢) <;> omega
      · intro e he
        rw [invoke_log] at he
        simp only [List.mem_append, List.mem_cons, List.mem_singleton, List.not_mem_nil,
          or_false] at he
        rcases he with he | rfl | rfl | rfl
        · exact h.asserts e he
        · exact ⟨by simp, by simp⟩
        · exact ⟨by simp, by simp⟩
        · exact ⟨by simp, by simp⟩

theorem emplace_slot (s : Sys σ) (r q : RoleId) (op : coro_op) :
    (s.emplace r op).impl.slot q = if q = r then some op else s.impl.slot q := by
  show (s.impl.set_slot r (some op)).slot q = _
  exact slot_set_slot _ _ _ _

theorem Inv.emplace {k : Nat} {s : Sys σ} (h : Inv k s) (op : coro_op) (r : RoleId)
    (hr : op.role = r) (hk : k = if op.is_idle then 1 else 0) : Inv 0 (s.emplace r op) := by
  have hslots : ∀ q x, (s.emplace r op).impl.slot q = some x → x.role = q := by
    intro q x hq
    rw [emplace_slot] at hq
    split at hq
    · next hqr => cases hq; rw [hqr]; exact hr
    · exact h.slots q x hq
  refine ⟨h.alive, hslots, ?_, ?_, ?_⟩
  · have : (s.emplace r op).impl.wr_block = s.impl.wr_block := set_slot_wr_block _ _ _
    rw [this]
    exact h.pending
  · have h0 := h.idle
    rw [idle_pending_typed _ h.slots] at h0
    rw [idle_pending_typed _ hslots, emplace_slot, emplace_idle_pinging]
    show _ + List.countP _ s.posted + List.countP _ s.inflight + 0 = _
    by_cases hidle : op.is_idle = true
    · have hri : r = .idle_ping := by rw [← hr]; exact (is_idle_iff_role op).mp hidle
      have hin : idle_in (some op) = 1 := by simp [idle_in, hidle]
      simp only [hk, hidle, if_true] at h0
      simp only [hri, if_true, hin]
      have hle : (if s.impl.idle_pinging = true then 1 else 0) ≤ 1 := by split <;> omega
      omega
    · have hri : r ≠ .idle_ping := by
        intro hri
        exact hidle ((is_idle_iff_role op).mpr (hr.trans hri))
      have hne : ¬ (RoleId.idle_ping = r) := fun e => hri e.symm
      simp only [hk, hidle] at h0
      simp only [hne, if_false]
      simpa using h0
  · intro e he
    simp only [Sys.emplace, Sys.emit, List.mem_append, List.mem_singleton] at he
    rcases he with he | rfl
    · exact h.asserts e he
    · exact ⟨by simp, by simp⟩

theorem Inv.async_write {k : Nat} {s : Sys σ} (h : Inv k s) (op : coro_op)
    (hp : s.posted = []) (hi : s.inflight = []) (ho : s.impl.wr_block.owner = some op.role)
    (hc : op.coro = .yield3) (hk : k = if op.is_idle then 1 else 0) :
    Inv 0 (s.async_write op) := by
  refine ⟨h.alive, h.slots, ?_, ?_, ?_⟩
  · exact Or.inr (Or.inr ⟨op, hp, by show s.inflight ++ [op] = [op]; rw [hi]; rfl, ho, hc⟩)
  · have h0 := h.idle
    have h1 : (s.async_write op).idle_pending
        = s.idle_pending + if op.is_idle then 1 else 0 := by
      simp only [Sys.idle_pending, Sys.async_write, Sys.emit, List.countP_append,
        List.countP_cons, List.countP_nil]
      omega
    have h2 : (s.async_write op).impl.idle_pinging = s.impl.idle_pinging := rfl
    rw [h1, h2, ← h0, hk]
    rfl
  · intro e he
    simp only [Sys.async_write, Sys.emit, List.mem_append, List.mem_singleton] at he
    rcases he with he | rfl
    · exact h.asserts e he
    · exact ⟨by simp, by simp⟩

theorem Inv.of_try_lock_free {k : Nat} {s : Sys σ} (h : Inv k s) (r : RoleId)
    (hfree : s.impl.wr_block.owner = none) : Inv k (s.try_lock r).2 := by
  obtain ⟨-, hlog, -, -, hflag, hslot, hp, hi, ha⟩ := websocket.try_lock_free s r hfree
  refine h.congr ha hslot hp hi (Or.inr (h.quiet_or_owned hfree)) hflag ?_
  intro x hx
  rw [hlog] at hx
  simp only [List.mem_append, List.mem_singleton] at hx
  rcases hx with hx | rfl
  · exact Or.inl hx
  · exact Or.inr ⟨by simp, by simp⟩

theorem Inv.of_try_lock_busy {k : Nat} {s : Sys σ} (h : Inv k s) (r : RoleId)
    (hbusy : s.impl.wr_block.owner ≠ none) : Inv k (s.try_lock r).2 := by
  obtain ⟨-, hlog, himpl, hp, hi, ha⟩ := websocket.try_lock_busy s r hbusy
  refine h.congr ha (fun q => by rw [himpl]) hp hi (Or.inl (by rw [himpl])) (by rw [himpl]) ?_
  intro x hx
  rw [hlog] at hx
  simp only [List.mem_append, List.mem_singleton] at hx
  rcases hx with hx | rfl
  · exact Or.inl hx
  · exact Or.inr ⟨by simp, by simp⟩

theorem Inv.assert_is_locked {k : Nat} {s : Sys σ} (h : Inv k s) (r : RoleId)
    (ho : s.impl.wr_block.owner = some r) : Inv k (s.assert_is_locked r) := by
  refine h.emit _ ⟨by simp, ?_⟩
  simp [soft_mutex.is_locked, ho]

theorem Inv.clear_idle {s : Sys σ} (h : Inv 1 s) : Inv 0 (s.set_idle_pinging false) := by
  refine ⟨h.alive, fun r op hr => h.slots r op ((set_idle_pinging_slot s false r).symm.trans hr),
    h.pending, ?_, ?_⟩
  · have h1 : (s.set_idle_pinging false).idle_pending = s.idle_pending := rfl
    have h2 : (s.set_idle_pinging false).impl.idle_pinging = false := rfl
    rw [h1, h2, h.flag_of_running.2]
    rfl
  · intro e he
    simp only [Sys.set_idle_pinging, Sys.emit, List.mem_append, List.mem_singleton] at he
    rcases he with he | rfl
    · exact h.asserts e he
    · exact ⟨by simp, by simp⟩

theorem Inv.set_idle {s : Sys σ} (h : Inv 0 s) (hf : s.impl.idle_pinging = false) :
    Inv 1 (s.set_idle_pinging true) := by
  refine ⟨h.alive, fun r op hr => h.slots r op ((set_idle_pinging_slot s true r).symm.trans hr),
    h.pending, ?_, ?_⟩
  · have h0 := h.idle
    rw [hf] at h0
    have h1 : (s.set_idle_pinging true).idle_pending = s.idle_pending := rfl
    have h2 : (s.set_idle_pinging true).impl.idle_pinging = true := rfl
    rw [h1, h2]
    simp at h0 ⊢
    exact h0
  · intro e he
    simp only [Sys.set_idle_pinging, Sys.emit, List.mem_append, List.mem_singleton] at he
    rcases he with he | rfl
    · exact h.asserts e he
    · exact ⟨by simp, by simp⟩

theorem ping_upcall_inv (self : ping_op) (e : error_code) (cont : Bool) {s : Sys σ}
    (h : Inv 0 s) (hp : s.posted = []) (hi : s.inflight = []) :
    Inv 0 (self.upcall e cont s) :=
  ((h.unlock .ping hp hi).maybe_invoke_any hp hi _).emit _ ⟨by simp, by simp⟩

theorem ping_send_inv (c : Collab σ) (self : ping_op) (ec : error_code) (cont : Bool)
    {t : Sys σ} (h : Inv 0 t) (hp : t.posted = []) (hi : t.inflight = [])
    (ho : t.impl.wr_block.owner = some .ping) : Inv 0 (self.send c ec cont t) := by
  cases hc : (c.check_stop_now t.impl.status ec).1 with
  | none =>
      rw [ping_send_go c self ec cont t hc]
      exact (h.check_stop_now c ec).async_write _ hp hi ho rfl rfl
  | some e =>
      rw [ping_send_stop c self ec cont t e hc]
      exact ping_upcall_inv self e cont (h.check_stop_now c ec) hp hi

theorem ping_call_inv (c : Collab σ) (self : ping_op) (ec : error_code) (cont : Bool)
    {s : Sys σ} (h : Inv 0 s)
    (hentry : self.coro = .start
      ∨ ((self.coro = .yield2 ∧ s.impl.wr_block.owner = some .ping ∨ self.coro = .yield3)
          ∧ s.posted = [] ∧ s.inflight = [])) :
    Inv 0 (self.call c ec cont s) := by
  rcases hentry with h0 | ⟨⟨h2, ho⟩ | h3, hp, hi⟩
  · by_cases hfree : s.impl.wr_block.owner = none
    · obtain ⟨hlock, -, hown, -, -, -, hp, hi, -⟩ := try_lock_free s .ping hfree
      have hq := h.quiet_or_owned hfree
      have hcall : self.call c ec cont s = self.send c ec cont (s.try_lock .ping).2 := by
        simp [ping_op.call, h.alive, ping_op.body, h0, hlock]
      rw [hcall]
      exact ping_send_inv c self ec cont (h.of_try_lock_free .ping hfree) (hp.trans hq.1)
        (hi.trans hq.2) hown
    · obtain ⟨hlock, -⟩ := try_lock_busy s .ping hfree
      have hcall : self.call c ec cont s
          = (s.try_lock .ping).2.emplace .ping (.ping { self with coro := .yield1 }) := by
        simp [ping_op.call, h.alive, ping_op.body, h0, hlock]
      rw [hcall]
      exact (h.of_try_lock_busy .ping hfree).emplace _ _ rfl rfl
  · have hcall : self.call c ec cont s = self.send c ec cont (s.assert_is_locked .ping) := by
      simp [ping_op.call, h.alive, ping_op.body, h2]
    rw [hcall]
    exact ping_send_inv c self ec cont (h.assert_is_locked .ping ho) hp hi ho
  · have hcall : self.call c ec cont s
        = self.upcall (((s.check_stop_now c ec).1).getD ec) cont (s.check_stop_now c ec).2 := by
      simp [ping_op.call, h.alive, ping_op.body, h3]
    rw [hcall]
    exact ping_upcall_inv self _ cont (h.check_stop_now c ec) hp hi

theorem idle_upcall_inv {s : Sys σ} (h : Inv 1 s) (hp : s.posted = [])
    (hi : s.inflight = []) : Inv 0 (idle_ping_op.upcall s) := by
  have h1 : Inv 1 (s.emit (.assert_idle_pinging s.impl.idle_pinging)) :=
    h.emit _ ⟨by simp [h.flag_of_running.1], by simp⟩
  exact (h1.clear_idle.unlock .idle_ping hp hi).maybe_invoke_any hp hi _

theorem idle_send_inv (c : Collab σ) (self : idle_ping_op) (ec : error_code)
    {t : Sys σ} (h : Inv 1 t) (hp : t.posted = []) (hi : t.inflight = [])
    (ho : t.impl.wr_block.owner = some .idle_ping) : Inv 0 (self.send c ec t) := by
  cases hc : (c.check_stop_now t.impl.status ec).1 with
  | none =>
      rw [idle_send_go c self ec t hc]
      exact (h.check_stop_now c ec).async_write _ hp hi ho rfl rfl
  | some e =>
      rw [idle_send_stop c self ec t (by rw [hc]; simp)]
      exact idle_upcall_inv (h.check_stop_now c ec) hp hi

theorem idle_call_inv (c : Collab σ) (self : idle_ping_op) (ec : error_code)
    {s : Sys σ} (h : Inv 1 s)
    (hentry : self.coro = .start
      ∨ ((self.coro = .yield2 ∧ s.impl.wr_block.owner = some .idle_ping ∨ self.coro = .yield3)
          ∧ s.posted = [] ∧ s.inflight = [])) :
    Inv 0 (self.call c ec s) := by
  rcases hentry with h0 | ⟨⟨h2, ho⟩ | h3, hp, hi⟩
  · by_cases hfree : s.impl.wr_block.owner = none
    · obtain ⟨hlock, -, hown, -, -, -, hp, hi, -⟩ := try_lock_free s .idle_ping hfree
      have hq := h.quiet_or_owned hfree
      have hcall : self.call c ec s = self.send c ec (s.try_lock .idle_ping).2 := by
        simp [idle_ping_op.call, h.alive, idle_ping_op.body, h0, hlock]
      rw [hcall]
      exact idle_send_inv c self ec (h.of_try_lock_free .idle_ping hfree) (hp.trans hq.1)
        (hi.trans hq.2) hown
    · obtain ⟨hlock, -⟩ := try_lock_busy s .idle_ping hfree
      have hcall : self.call c ec s
          = (s.try_lock .idle_ping).2.emplace .idle_ping
              (.idle_ping { self with coro := .yield1 }) := by
        simp [idle_ping_op.call, h.alive, idle_ping_op.body, h0, hlock]
      rw [hcall]
      exact (h.of_try_lock_busy .idle_ping hfree).emplace _ _ rfl rfl
  · have hcall : self.call c ec s = self.send c ec (s.assert_is_locked .idle_ping) := by
      simp [idle_ping_op.call, h.alive, idle_ping_op.body, h2]
    rw [hcall]
    exact idle_send_inv c self ec (h.assert_is_locked .idle_ping ho) hp hi ho
  · have hcall : self.call c ec s = idle_ping_op.upcall (s.check_stop_now c ec).2 := by
      simp [idle_ping_op.call, h.alive, idle_ping_op.body, h3]
    rw [hcall]
    exact idle_upcall_inv (h.check_stop_now c ec) hp hi

theorem peer_upcall_inv (self : peer_op) {s : Sys σ}
    (h : Inv 0 s) (hp : s.posted = []) (hi : s.inflight = []) : Inv 0 (self.upcall s) :=
  (h.unlock self.r.id hp hi).maybe_invoke_any hp hi _

theorem peer_send_inv (c : Collab σ) (self : peer_op) (ec : error_code)
    {t : Sys σ} (h : Inv 0 t) (hp : t.posted = []) (hi : t.inflight = [])
    (ho : t.impl.wr_block.owner = some self.r.id) : Inv 0 (self.send c ec t) := by
  unfold peer_op.send
  split
  · exact peer_upcall_inv self (h.check_stop_now c ec) hp hi
  · exact (h.check_stop_now c ec).async_write _ hp hi ho rfl rfl

theorem peer_call_inv (c : Collab σ) (self : peer_op) (ec : error_code)
    {s : Sys σ} (h : Inv 0 s)
    (hentry : self.coro = .start
      ∨ ((self.coro = .yield2 ∧ s.impl.wr_block.owner = some self.r.id ∨ self.coro = .yield3)
          ∧ s.posted = [] ∧ s.inflight = [])) :
    Inv 0 (self.call c ec s) := by
  rcases hentry with h0 | ⟨⟨h2, ho⟩ | h3, hp, hi⟩
  · by_cases hfree : s.impl.wr_block.owner = none
    · obtain ⟨hlock, -, hown, -, -, -, hp, hi, -⟩ := try_lock_free s self.r.id hfree
      have hq := h.quiet_or_owned hfree
      have hcall : self.call c ec s = self.send c ec (s.try_lock self.r.id).2 := by
        simp [peer_op.call, h.alive, peer_op.body, h0, hlock]
      rw [hcall]
      exact peer_send_inv c self ec (h.of_try_lock_free self.r.id hfree) (hp.trans hq.1)
        (hi.trans hq.2) hown
    · obtain ⟨hlock, -⟩ := try_lock_busy s self.r.id hfree
      have hcall : self.call c ec s
          = (s.try_lock self.r.id).2.emplace self.r.id
              (.peer { self with coro := .yield1 }) := by
        simp [peer_op.call, h.alive, peer_op.body, h0, hlock]
      rw [hcall]
      exact (h.of_try_lock_busy self.r.id hfree).emplace _ _ rfl rfl
  · have hcall : self.call c ec s = self.send c ec (s.assert_is_locked self.r.id) := by
      simp [peer_op.call, h.alive, peer_op.body, h2]
    rw [hcall]
    exact peer_send_inv c self ec (h.assert_is_locked self.r.id ho) hp hi ho
  · have hcall : self.call c ec s = self.upcall (s.check_stop_now c ec).2 := by
      simp [peer_op.call, h.alive, peer_op.body, h3]
    rw [hcall]
    exact peer_upcall_inv self (h.check_stop_now c ec) hp hi

theorem coro_call_inv (c : Collab σ) (op : coro_op) (ec : error_code) {s : Sys σ}
    (h : Inv (if op.is_idle then 1 else 0) s) (hp : s.posted = []) (hi : s.inflight = [])
    (hentry : (op.coro = .yield2 ∧ s.impl.wr_block.owner = some op.role) ∨ op.coro = .yield3) :
    Inv 0 (op.call c ec s) := by
  cases op with
  | ping p => exact ping_call_inv c p ec true h (Or.inr ⟨hentry, hp, hi⟩)
  | idle_ping p => exact idle_call_inv c p ec h (Or.inr ⟨hentry, hp, hi⟩)
  | peer p => exact peer_call_inv c p ec h (Or.inr ⟨hentry, hp, hi⟩)

theorem Inv.take {s t : Sys σ} (h : Inv 0 s) (op : coro_op)
    (hsum : s.posted.countP coro_op.is_idle + s.inflight.countP coro_op.is_idle
      = if op.is_idle then 1 else 0)
    (ha : t.alive = s.alive) (himpl : t.impl = s.impl) (hp : t.posted = [])
    (hi : t.inflight = []) (hl : t.log = s.log) :
    Inv (if op.is_idle then 1 else 0) t := by
  refine ⟨ha.trans h.alive, fun r x hr => h.slots r x (himpl ▸ hr), Or.inl ⟨hp, hi⟩, ?_,
    fun e he => h.asserts e (hl ▸ he)⟩
  have h0 := h.idle
  rw [idle_pending_eq_slots] at h0 ⊢
  rw [himpl, hp, hi]
  simp only [List.countP_nil] at h0 ⊢
  omega

theorem get?_singleton {α : Type} (a b : α) (i : Nat) (h : [a].get? i = some b) :
    i = 0 ∧ a = b := by
  cases i with
  | zero => simpa using h
  | succ n => simp at h

theorem step_inv (c : Collab σ) {s : Sys σ} (h : Inv 0 s) (a : Action σ) :
    Inv 0 (s.step c a) := by
  cases a with
  | run_ping_op hd op payload =>
      exact ping_call_inv c _ .success false (h.emit _ ⟨by simp, by simp⟩) (Or.inl rfl)
  | trigger_idle_ping =>
      show Inv 0 (idle_ping_op.ctor c s)
      unfold idle_ping_op.ctor
      cases hf : s.impl.idle_pinging with
      | true => simpa using h
      | false =>
          simp only [Bool.not_false, if_true]
          exact idle_call_inv c _ .success
            ((h.emit (.write_ping .ping []) ⟨by simp, by simp⟩).set_idle hf) (Or.inl rfl)
  | peer_request r fb order => exact peer_call_inv c _ .success h (Or.inl rfl)
  | run_posted i =>
      show Inv 0 (match s.posted.get? i with
        | none => s
        | some op => op.call c .success { s with posted := s.posted.eraseIdx i })
      cases hget : s.posted.get? i with
      | none => exact h
      | some op =>
          rcases h.pending with ⟨hp, -⟩ | ⟨x, hp, hi, ho, hc⟩ | ⟨x, hp, -, -, -⟩
          · rw [hp] at hget; simp at hget
          · rw [hp] at hget
            obtain ⟨rfl, rfl⟩ := get?_singleton _ _ _ hget
            have hps : ({ s with posted := s.posted.eraseIdx 0 } : Sys σ).posted = [] := by
              show s.posted.eraseIdx 0 = []
              rw [hp]; rfl
            refine coro_call_inv c x .success
              (h.take x ?_ rfl rfl hps hi rfl) hps hi (Or.inl ⟨hc, ho⟩)
            rw [hp, hi]
            simp [List.countP_cons]
          · rw [hp] at hget; simp at hget
  | write_done i ec =>
      show Inv 0 (match s.inflight.get? i with
        | none => s
        | some op => op.call c ec { s with inflight := s.inflight.eraseIdx i })
      cases hget : s.inflight.get? i with
      | none => exact h
      | some op =>
          rcases h.pending with ⟨-, hi⟩ | ⟨x, -, hi, -, -⟩ | ⟨x, hp, hi, ho, hc⟩
          · rw [hi] at hget; simp at hget
          · rw [hi] at hget; simp at hget
          · rw [hi] at hget
            obtain ⟨rfl, rfl⟩ := get?_singleton _ _ _ hget
            have his : ({ s with inflight := s.inflight.eraseIdx 0 } : Sys σ).inflight = [] := by
              show s.inflight.eraseIdx 0 = []
              rw [hi]; rfl
            refine coro_call_inv c x ec
              (h.take x ?_ rfl rfl hp his rfl) hp his (Or.inr hc)
            rw [hp, hi]
            simp [List.countP_cons]
  | set_status st =>
      exact h.congr rfl (fun q => by cases q <;> rfl) rfl rfl (Or.inl rfl) rfl
        (fun e he => Or.inl he)

theorem init_inv (st : σ) : Inv 0 (Sys.init st) := by
  refine ⟨rfl, ?_, Or.inl ⟨rfl, rfl⟩, rfl, ?_⟩
  · intro r op hr
    cases r <;> cases hr
  · intro e he
    cases he

theorem run_inv (c : Collab σ) (acts : List (Action σ)) {s : Sys σ} (h : Inv 0 s) :
    Inv 0 (s.run c acts) := by
  induction acts generalizing s with
  | nil => exact h
  | cons a rest ih => exact ih (step_inv c h a)

/-! ## Claims about every reachable state -/

/-- C1: in every state reachable from a fresh connection (unlocked, no waiters)
by any interleaving of ping, idle-ping and other requests, executor runs and
write completions, every outstanding transport write belongs to the operation
whose role owns the lock, and at most one transport write is outstanding. -/
theorem C1_mutual_exclusion (c : Collab σ) (st : σ) (acts : List (Action σ)) :
    (∀ op ∈ ((Sys.init st).run c acts).inflight,
        ((Sys.init st).run c acts).impl.wr_block.owner = some op.role)
    ∧ ((Sys.init st).run c acts).inflight.length ≤ 1 := by
  have h := run_inv c acts (init_inv st)
  rcases h.pending with ⟨-, hi⟩ | ⟨x, -, hi, -, -⟩ | ⟨x, -, hi, ho, -⟩
  · rw [hi]; simp
  · rw [hi]; simp
  · rw [hi]
    refine ⟨?_, by simp⟩
    intro op hop
    simp only [List.mem_singleton] at hop
    rw [hop]
    exact ho

/-- C10: in every state reachable from a fresh connection (`idle_pinging`
false, no idle ping in flight) the number of started and unfinished
`idle_ping_op` instances is 1 if `idle_pinging` is true and 0 if it is false,
and the assertion `BEAST_ASSERT(sp->idle_pinging)` on the release path has
never failed. -/
theorem C10_idle_flag_invariant (c : Collab σ) (st : σ) (acts : List (Action σ)) :
    ((Sys.init st).run c acts).idle_pending
        = (if ((Sys.init st).run c acts).impl.idle_pinging then 1 else 0)
    ∧ Event.assert_idle_pinging false ∉ ((Sys.init st).run c acts).log := by
  have h := run_inv c acts (init_inv st)
  exact ⟨h.idle, fun hmem => (h.asserts _ hmem).1 rfl⟩

/-! ## Instances and counterexamples -/

/-- C2 with "exactly one frame" fails: a user write holds the lock while the idle timer
fires twice (the first idle ping is queued and unfinished at the second call);
the stream is closed before the idle ping is woken, so the idle ping finishes
without any frame: the pair of calls transmits no frame, not one. -/
theorem C2_counterexample :
    ((Sys.init 0).run demo (demo_two_triggers.take 2)).impl.idle_pinging = true
    ∧ ((Sys.init 0).run demo demo_two_triggers).impl.idle_pinging = false
    ∧ ((Sys.init 0).run demo demo_two_triggers).idle_pending = 0
    ∧ ((Sys.init 0).run demo demo_two_triggers).inflight = []
    ∧ writes_of .idle_ping ((Sys.init 0).run demo demo_two_triggers).log = 0 := by
  decide

/-- C6 with "exactly one write for every outcome" fails: on a closed stream the first stop check reports
a stop, and the invocation completes its handler without any transport write. -/
theorem C6_counterexample :
    (ping_op.ctor demo 7 .ping [] (Sys.init 1)).log
      = [.write_ping .ping [], .try_lock .ping true,
          .check_stop_now (some .operation_aborted), .unlock .ping,
          .complete 7 false .operation_aborted]
    ∧ writes_of .ping (ping_op.ctor demo 7 .ping [] (Sys.init 1)).log = 0
    ∧ (ping_op.ctor demo 7 .ping [] (Sys.init 1)).inflight = [] := by
  decide

/-- C7 with "writes only while owning the lock" fails: with the lock held by the Write role, the
blocking `ping` writes its frame and returns success, and the Write role still
owns the lock afterwards. -/
theorem C7_counterexample :
    demo_wr_locked.impl.wr_block.owner = some .wr
    ∧ (stream.ping demo [] .success .success demo_wr_locked).1 = .success
    ∧ (stream.ping demo [] .success .success demo_wr_locked).2.log
        = [.check_stop_now none, .write_ping .ping [], .write [137, 0], .check_stop_now none]
    ∧ (stream.ping demo [] .success .success demo_wr_locked).2.impl.wr_block.owner
        = some .wr := by
  decide

/-- C2 at concrete states: a second trigger while the first idle ping is queued
changes nothing, and a posted idle ping on an open stream starts one write. -/
theorem C2_idle_suppression_witness :
    idle_ping_op.ctor demo demo_idle_queued = demo_idle_queued
    ∧ writes_of .idle_ping
        (idle_ping_op.call demo ⟨[137, 0], .yield2⟩ .success demo_idle_posted).log
        = writes_of .idle_ping demo_idle_posted.log + 1 :=
  ⟨(C2_idle_suppression demo ⟨[137, 0], .yield2⟩ .success demo_idle_queued).1 (by decide),
    ((((C2_idle_suppression demo ⟨[137, 0], .yield2⟩ .success demo_idle_posted).2.2
      (by decide)).2.2.1 (Or.inr rfl)).2 (by decide)).1⟩

/-- C3 at concrete states: with Close, Ping and Write queued an idle-ping release
resumes Close only; with only Ping queued it resumes Ping. -/
theorem C3_resumption_priority_witness :
    (resumed (idle_ping_op.upcall demo_queued).log = resumed demo_queued.log ++ [.close]
      ∧ (idle_ping_op.upcall demo_queued).impl.op_close = none
      ∧ (idle_ping_op.upcall demo_queued).impl.op_ping = demo_queued.impl.op_ping
      ∧ (idle_ping_op.upcall demo_queued).impl.op_wr = demo_queued.impl.op_wr)
    ∧ (resumed (idle_ping_op.upcall demo_ping_queued).log
        = resumed demo_ping_queued.log ++ [.ping]
      ∧ (idle_ping_op.upcall demo_ping_queued).impl.op_ping = none) :=
  ⟨(C3_resumption_priority ⟨1, [], .yield3⟩ .success true demo_queued).2.2.1
      (by decide) (by decide) (by decide) (by decide),
    (C3_resumption_priority ⟨1, [], .yield3⟩ .success true demo_ping_queued).2.2.2
      (by decide) (by decide)⟩

/-- C4 at a concrete state: the resumption of an idle ping after a failed write
ends with the flag cleared. -/
theorem C4_idle_flag_cleared_witness :
    demo_idle_posted.alive = true
    ∧ (idle_ping_op.call demo ⟨[137, 0], .yield3⟩ (.other 32) demo_idle_posted).impl.idle_pinging
        = false :=
  ⟨rfl, (C4_idle_flag_cleared demo ⟨[137, 0], .yield3⟩ (.other 32) demo_idle_posted rfl
    (Or.inl rfl)).1⟩

/-- C5 at a concrete state: resumed after the connection is gone, a queued ping
only completes with `operation_aborted` and a queued idle ping does nothing. -/
theorem C5_cancellation_safety_witness :
    demo_gone.alive = false
    ∧ (ping_op.call demo ⟨7, [137, 0], .yield1⟩ .success true demo_gone).impl = demo_gone.impl
    ∧ (ping_op.call demo ⟨7, [137, 0], .yield1⟩ .success true demo_gone).log
        = demo_gone.log ++ [.complete 7 true .operation_aborted]
    ∧ idle_ping_op.call demo ⟨[137, 0], .yield1⟩ .success demo_gone = demo_gone :=
  ⟨rfl,
    (C5_cancellation_safety demo ⟨7, [137, 0], .yield1⟩ ⟨[137, 0], .yield1⟩ .success true
      demo_gone rfl).1,
    (C5_cancellation_safety demo ⟨7, [137, 0], .yield1⟩ ⟨[137, 0], .yield1⟩ .success true
      demo_gone rfl).2.2.2.1,
    (C5_cancellation_safety demo ⟨7, [137, 0], .yield1⟩ ⟨[137, 0], .yield1⟩ .success true
      demo_gone rfl).2.2.2.2⟩

/-- C6 at concrete states: on an open stream the first entry starts one write;
on a closed stream it starts none and completes. -/
theorem C6_writes_per_invocation_witness :
    writes_of .ping (ping_op.call demo ⟨7, [137, 0], .start⟩ .success false (Sys.init 0)).log
      = writes_of .ping (Sys.init 0).log + 1
    ∧ writes_of .ping (ping_op.call demo ⟨7, [137, 0], .start⟩ .success false (Sys.init 1)).log
      = writes_of .ping (Sys.init 1).log :=
  ⟨(((C6_writes_per_invocation demo ⟨7, [137, 0], .start⟩ .success false (Sys.init 0)
      rfl).2.2.1 (Or.inl ⟨rfl, rfl⟩)).2 (by decide)).1,
    (((C6_writes_per_invocation demo ⟨7, [137, 0], .start⟩ .success false (Sys.init 1)
      rfl).2.2.1 (Or.inl ⟨rfl, rfl⟩)).1 .operation_aborted (by decide)).1⟩

/-- C7 at a concrete state: with the lock held by the Write role the blocking
`ping` writes its frame and leaves the lock with the Write role. -/
theorem C7_blocking_variants_ignore_lock_witness :
    (stream.ping demo [] .success .success demo_wr_locked).2.impl.wr_block
        = demo_wr_locked.impl.wr_block
    ∧ (stream.ping demo [] .success .success demo_wr_locked).2.log
        = demo_wr_locked.log ++ [.check_stop_now none, .write_ping .ping [],
            .write (demo.write_ping .ping []),
            .check_stop_now (demo.check_stop_now
              (demo.check_stop_now demo_wr_locked.impl.status .success).2 .success).1] :=
  ⟨(C7_blocking_variants_ignore_lock demo [] .success .success demo_wr_locked).1.1,
    (C7_blocking_variants_ignore_lock demo [] .success .success demo_wr_locked).1.2.2
      (by decide)⟩

/-- C8 at concrete states: `ping([])` on an open idle connection writes one ping
frame with empty payload and returns success; on a closed one it writes
nothing and returns the stop error. -/
theorem C8_end_to_end_send_witness :
    ((stream.ping demo [] .success .success (Sys.init 0)).1 = .success
      ∧ (stream.ping demo [] .success .success (Sys.init 0)).2.log
          = (Sys.init 0).log ++ [.check_stop_now none, .write_ping .ping [],
              .write (demo.write_ping .ping []), .check_stop_now none])
    ∧ ((stream.ping demo [] .success .success (Sys.init 1)).1 = .operation_aborted
      ∧ (stream.ping demo [] .success .success (Sys.init 1)).2.log
          = (Sys.init 1).log ++ [.check_stop_now (some .operation_aborted)]) :=
  ⟨((C8_end_to_end_send demo [] .success (Sys.init 0)).1 (by decide) (by decide)).1,
    ((C8_end_to_end_send demo [] .success (Sys.init 1)).2 .operation_aborted .success
      (by decide)).1⟩

/-- C9 at a concrete state: on a closed stream the first entry of a ping skips
the write, unlocks, runs the dispatcher and completes with the stop error. -/
theorem C9_release_always_runs_witness :
    (ping_op.call demo ⟨7, [137, 0], .start⟩ .success false (Sys.init 1)).log
      = (Sys.init 1).log
        ++ [if (⟨7, [137, 0], .start⟩ : ping_op).coro = .start then Event.try_lock .ping true
            else Event.assert_is_locked ((Sys.init 1).impl.wr_block.is_locked .ping)]
        ++ [.check_stop_now (some .operation_aborted), .unlock .ping]
        ++ dispatch_events (Sys.init 1).impl [.close, .idle_ping, .rd, .wr]
        ++ [.complete 7 false .operation_aborted] :=
  (C9_release_always_runs demo ⟨7, [137, 0], .start⟩ .success false (Sys.init 1) rfl
    (Or.inl ⟨rfl, rfl⟩)).1 .operation_aborted (by decide)

end websocket
